import Mathlib

/-!
Verification of the plan parser / generator / reconciliation-merge engine of
the Zenith project tracker (src/services/projectService.ts, src/App.tsx,
src/constants.ts, src/types.ts).

Strings are modelled by Lean `String` (a wrapper around `List Char`); the
JavaScript string primitives used by the source (`trim`, `split`, `startsWith`,
`substring`, first-occurrence `replace`, template literals) are embedded as
executable functions over the underlying character lists.
-/

set_option maxHeartbeats 3200000
set_option maxRecDepth 16384

namespace Zenith

/-! ## Data model (src/types.ts) -/

/-- Embeds the string enum `TaskStatus` of src/types.ts. -/
inductive TaskStatus
  | Backlog
  | ToDo
  | InProgress
  | Review
  | Done
  | Future
  deriving DecidableEq, Repr

/-- Embeds the string enum `Priority` of src/types.ts. -/
inductive Priority
  | High
  | Medium
  | Low
  | None
  deriving DecidableEq, Repr

/-- Value string of each `TaskStatus` enum member (src/types.ts). -/
def statusText : TaskStatus → String
  | .Backlog => "Backlog"
  | .ToDo => "To-Do"
  | .InProgress => "In Progress"
  | .Review => "Review"
  | .Done => "Done"
  | .Future => "Future"

/-- Value string of each `Priority` enum member (src/types.ts). -/
def priorityText : Priority → String
  | .High => "High"
  | .Medium => "Medium"
  | .Low => "Low"
  | .None => "None"

/-- Embeds the `Task` interface of src/types.ts.  `subProjectId` is the only
optional out-of-band field. -/
structure Task where
  id : String
  description : String
  status : TaskStatus
  phase : String
  subPhase : String
  priority : Priority
  subProjectId : Option String := none
  deriving DecidableEq, Repr

/-- Embeds `KANBAN_COLUMNS` of src/constants.ts (src/unnamed/part_007). -/
def KANBAN_COLUMNS : List TaskStatus :=
  [.Backlog, .ToDo, .InProgress, .Review, .Done, .Future]

/-! ## JavaScript string primitives, embedded over character lists -/

/-- Drop trailing whitespace of a character list. -/
def trimRight (l : List Char) : List Char :=
  (l.reverse.dropWhile (·.isWhitespace)).reverse

/-- Embeds JavaScript `String.prototype.trim` on the character list. -/
def trimChars (l : List Char) : List Char :=
  trimRight (l.dropWhile (·.isWhitespace))

/-- Embeds JavaScript `String.prototype.trim`. -/
def jsTrim (s : String) : String := ⟨trimChars s.data⟩

/-- Embeds JavaScript `String.prototype.split(sep)` for a one-character
separator: splits at every occurrence, keeping empty chunks. -/
def splitCh (sep : Char) : List Char → List (List Char)
  | [] => [[]]
  | c :: cs =>
    if c = sep then [] :: splitCh sep cs
    else
      match splitCh sep cs with
      | [] => [[c]]
      | l :: ls => (c :: l) :: ls

/-- Embeds JavaScript `String.prototype.startsWith`. -/
def strStarts (pat s : String) : Bool := pat.data.isPrefixOf s.data

/-- Embeds JavaScript `String.prototype.substring(n)` (drop the first `n`
characters). -/
def strDrop (n : Nat) (s : String) : String := ⟨s.data.drop n⟩

/-- Embeds JavaScript `String.prototype.replace(c, '')` with a one-character
string pattern: removes only the first occurrence. -/
def removeFirstChar (c : Char) : List Char → List Char
  | [] => []
  | x :: xs => if x = c then xs else x :: removeFirstChar c xs

/-- Decimal digits of a natural number, with explicit fuel (the fuel `n + 1`
always suffices). -/
def natDigitsAux : Nat → Nat → List Char
  | 0, _ => []
  | fuel + 1, n =>
    if n < 10 then [Nat.digitChar n]
    else natDigitsAux fuel (n / 10) ++ [Nat.digitChar (n % 10)]

/-- Embeds the JavaScript template interpolation of a number (decimal
rendering), as used by the placeholder id. -/
def natRepr (n : Nat) : String := ⟨natDigitsAux (n + 1) n⟩

/-! ## JavaScript object-key ordering

`generateImplementationPlanText` buckets tasks into a plain object keyed by
phase label and iterates `Object.keys`.  JavaScript enumerates integer-like
keys (canonical array indices) first in ascending numeric order, then the
remaining string keys in insertion order. -/

/-- Numeric value of a decimal digit string. -/
def strToNat (s : String) : Nat :=
  s.data.foldl (fun a c => a * 10 + (c.toNat - 48)) 0

/-- Whether a string is a canonical array index in the JavaScript sense:
nonempty, all digits, no leading zero (except "0" itself), value below
2^32 - 1. -/
def isCanonicalIndex (s : String) : Bool :=
  !s.data.isEmpty && s.data.all (·.isDigit) &&
    (s.data.head? ≠ some '0' || s = "0") && strToNat s < 4294967295

/-- Insert a string into a list kept ascending by numeric value. -/
def insertAsc (x : String) : List String → List String
  | [] => [x]
  | y :: ys => if strToNat x ≤ strToNat y then x :: y :: ys else y :: insertAsc x ys

/-- Insertion sort by numeric value. -/
def sortAsc : List String → List String
  | [] => []
  | x :: xs => insertAsc x (sortAsc xs)

/-- The key enumeration order of a JavaScript object whose keys were inserted
in the order given: canonical array indices first, ascending numerically, then
the other keys in insertion order. -/
def orderedKeys (ks : List String) : List String :=
  sortAsc (ks.filter isCanonicalIndex) ++ ks.filter (fun k => !isCanonicalIndex k)

/-- Accumulator loop of `firstSeen`: `seen` holds the keys already emitted. -/
def firstSeenAux : List String → List String → List String
  | [], _ => []
  | x :: xs, seen =>
    if x ∈ seen then firstSeenAux xs seen else x :: firstSeenAux xs (x :: seen)

/-- First-seen order of the distinct elements of a list (the key insertion
order produced by the grouping `reduce` in the source). -/
def firstSeen (l : List String) : List String := firstSeenAux l []

/-! ## Parser service (src/services/projectService.ts) -/

/-- Embeds `getStatusFromString`: delete the first hyphen and the first space
(JavaScript one-occurrence `replace`), then look the result up among the
`TaskStatus` enum keys, defaulting to `Backlog`. -/
def getStatusFromString (s : String) : TaskStatus :=
  let key : String := ⟨removeFirstChar ' ' (removeFirstChar '-' s.data)⟩
  if key = "Backlog" then .Backlog
  else if key = "ToDo" then .ToDo
  else if key = "InProgress" then .InProgress
  else if key = "Review" then .Review
  else if key = "Done" then .Done
  else if key = "Future" then .Future
  else .Backlog

/-- Embeds `getPriorityFromString`: exact lookup among the `Priority` enum
keys, defaulting to `None`. -/
def getPriorityFromString (p : String) : Priority :=
  if p = "High" then .High
  else if p = "Medium" then .Medium
  else if p = "Low" then .Low
  else if p = "None" then .None
  else .None

/-- The task built from one (already trimmed) list-item line: comma-split the
remainder after `- `, trim each field, and apply the source's fallbacks for
missing sub-phase / id / description / priority. -/
def mkParsedTask (t : String) (i : Nat) (st : TaskStatus) (ph : String) : Task :=
  let parts := (splitCh ',' (strDrop 2 t).data).map (fun p => (⟨trimChars p⟩ : String))
  let sub := parts.getD 0 ""
  let id := parts.getD 1 ""
  let desc := parts.getD 2 ""
  let pr := parts.getD 3 ""
  { id := if id = "" then "partial-" ++ natRepr i else id
    description := if desc = "" then "..." else desc
    status := st
    phase := ph
    subPhase := sub
    priority := getPriorityFromString (if pr = "" then "None" else pr)
    subProjectId := none }

/-- Line-by-line loop of `parseImplementationPlan`: carries the zero-based
line index and the current status / phase state. -/
def parseLines : List String → Nat → TaskStatus → String → List Task
  | [], _, _, _ => []
  | line :: rest, i, st, ph =>
    let t := jsTrim line
    if strStarts "# " t then
      parseLines rest (i + 1) (getStatusFromString (jsTrim (strDrop 2 t))) "General"
    else if strStarts "## " t then
      parseLines rest (i + 1) st (jsTrim (strDrop 3 t))
    else if strStarts "- " t then
      mkParsedTask t i st ph :: parseLines rest (i + 1) st ph
    else
      parseLines rest (i + 1) st ph

/-- Embeds `parseImplementationPlan`: split the text on newlines and run the
stateful line loop with initial status `Backlog` and initial phase
`"General"`. -/
def parseImplementationPlan (text : String) : List Task :=
  parseLines ((splitCh '\n' text.data).map (fun l => (⟨l⟩ : String))) 0 .Backlog "General"

/-! ## Generator service (src/services/projectService.ts) -/

/-- One emitted task line: `- <subPhase>, <id>, <description>, <priority>`. -/
def taskLine (t : Task) : String :=
  "- " ++ t.subPhase ++ ", " ++ t.id ++ ", " ++ t.description ++ ", " ++ priorityText t.priority

/-- The complete (non-placeholder) tasks of one status bucket, in scan order:
`groupedByStatus[status]` followed by the `partial-` filter. -/
def completeOf (tasks : List Task) (st : TaskStatus) : List Task :=
  (tasks.filter (fun t => t.status = st)).filter (fun t => !strStarts "partial-" t.id)

/-- The lines of one phase block: the `## ` heading, one line per task of that
phase, then the blank separator line. -/
def phaseBlockLines (ct : List Task) (ph : String) : List String :=
  ("## " ++ ph) :: ((ct.filter (fun t => t.phase = ph)).map taskLine ++ [""])

/-- The phase keys of a status bucket in JavaScript `Object.keys` order. -/
def phaseKeys (ct : List Task) : List String :=
  orderedKeys (firstSeen (ct.map (fun t => t.phase)))

/-- The lines of one status block (empty when the bucket holds no complete
task): the `# ` heading followed by the phase blocks. -/
def statusBlockLines (tasks : List Task) (st : TaskStatus) : List String :=
  let ct := completeOf tasks st
  if ct = [] then []
  else ("# " ++ statusText st) :: ((phaseKeys ct).map (phaseBlockLines ct)).flatten

/-- All lines the generator appends, in order; the source appends each with a
trailing newline. -/
def genLines (tasks : List Task) : List String :=
  (KANBAN_COLUMNS.map (statusBlockLines tasks)).flatten

/-- Embeds `generateImplementationPlanText`: join the emitted lines (each
followed by a newline), then `text.trim() + '\n'`. -/
def generateImplementationPlanText (tasks : List Task) : String :=
  ⟨trimChars (((genLines tasks).map (fun l => l.data ++ ['\n'])).flatten) ++ ['\n']⟩

/-! ## Reconciliation merge (src/App.tsx, ProjectView effect) -/

/-- Embeds the reconciliation merge of src/App.tsx: for each freshly parsed
task take the first previous task with the same id (if any) and carry over its
`subProjectId`; every other field comes from the fresh task. -/
def mergeTasks (fresh previous : List Task) : List Task :=
  fresh.map (fun n =>
    { n with subProjectId := (previous.find? (fun t => t.id == n.id)).bind (fun t => t.subProjectId) })

/-! ## Proof-support definitions -/

/-- State transition of one parsed line (status, phase). -/
def lineState (s : TaskStatus × String) (line : String) : TaskStatus × String :=
  let t := jsTrim line
  if strStarts "# " t then (getStatusFromString (jsTrim (strDrop 2 t)), "General")
  else if strStarts "## " t then (s.1, jsTrim (strDrop 3 t))
  else s

/-- State after parsing a list of lines. -/
def statesAfter (s : TaskStatus × String) (ls : List String) : TaskStatus × String :=
  ls.foldl lineState s

/-- The tasks one (already trimmed) line contributes: one task for a list-item
line, none otherwise. -/
def taskOut (t : String) (i : Nat) (st : TaskStatus) (ph : String) : List Task :=
  if strStarts "# " t then []
  else if strStarts "## " t then []
  else if strStarts "- " t then [mkParsedTask t i st ph]
  else []

/-- Clear the out-of-band field: what a fresh parse can at most reconstruct. -/
def stripSub (t : Task) : Task := { t with subProjectId := none }

/-- The text-representable fields of a task (everything except
`subProjectId`). -/
def projTask (t : Task) : String × String × TaskStatus × String × String × Priority :=
  (t.id, t.description, t.status, t.phase, t.subPhase, t.priority)

/-- A task as rebuilt by the parser inside the status bucket `st`: the text
fields survive, the status is the bucket's, the out-of-band field is cleared. -/
def reStat (st : TaskStatus) (t : Task) : Task :=
  { id := t.id, description := t.description, status := st, phase := t.phase,
    subPhase := t.subPhase, priority := t.priority, subProjectId := none }

/-- One status's tasks in the order the generator emits them: phase-key order,
then scan order within a phase. -/
def statusGroup (tasks : List Task) (st : TaskStatus) : List Task :=
  let ct := completeOf tasks st
  ((phaseKeys ct).map (fun ph => ct.filter (fun t => t.phase = ph))).flatten

/-- The order in which the generator emits tasks: canonical status order, then
phase-key order within each status, then scan order within a phase. -/
def canonTasks (tasks : List Task) : List Task :=
  (KANBAN_COLUMNS.map (statusGroup tasks)).flatten

/-- No character of the string is a newline. -/
def noNl (s : String) : Bool := s.data.all (· ≠ '\n')

/-- No character of the string is a comma. -/
def noComma (s : String) : Bool := s.data.all (· ≠ ',')

/-- The string neither starts nor ends with whitespace (so `trim` leaves it
unchanged). -/
def edgeClean (s : String) : Bool :=
  match s.data with
  | [] => true
  | c :: cs => !c.isWhitespace && !((c :: cs).getLastD 'a').isWhitespace

/-- A task whose text-representable fields survive one generate / parse cycle
exactly: the comma-separated fields carry no comma, no field carries a
newline, no field carries leading or trailing whitespace, id and description
and phase are nonempty, and the id is not a placeholder. -/
def wellFormedTask (t : Task) : Bool :=
  noComma t.subPhase && noNl t.subPhase && edgeClean t.subPhase &&
  noComma t.id && noNl t.id && edgeClean t.id && !(t.id == "") && !strStarts "partial-" t.id &&
  noComma t.description && noNl t.description && edgeClean t.description && !(t.description == "") &&
  noNl t.phase && edgeClean t.phase && !(t.phase == "")

/-- The statuses whose buckets receive a heading in the generated text. -/
def emittedStatuses (tasks : List Task) : List TaskStatus :=
  KANBAN_COLUMNS.filter (fun st => !(completeOf tasks st).isEmpty)

/-- The status-heading lines of a text, in order of appearance. -/
def headingLines (s : String) : List String :=
  ((splitCh '\n' s.data).map (fun l => (⟨l⟩ : String))).filter (fun l => strStarts "# " l)

/-- Append a character to the last chunk of a nonempty chunk list (the effect
of appending one non-separator character to a split text). -/
def appendLast (c : Char) : List (List Char) → List (List Char)
  | [] => [[c]]
  | [l] => [l ++ [c]]
  | l :: ls => l :: appendLast c ls

/-! ## Lemmas: trimming -/

theorem dropWhile_eq_self_of_head (p : Char → Bool) (l : List Char)
    (h : ∀ c, l.head? = some c → p c = false) : l.dropWhile p = l := by
  cases l with
  | nil => rfl
  | cons c cs => simp [List.dropWhile_cons, h c rfl]

theorem head?_dropWhile_false (p : Char → Bool) (l : List Char) :
    ∀ c, (l.dropWhile p).head? = some c → p c = false := by
  induction l with
  | nil => intro c h; simp at h
  | cons a as ih =>
    intro c h
    cases hpa : p a with
    | true => rw [List.dropWhile_cons, if_pos hpa] at h; exact ih c h
    | false =>
      rw [List.dropWhile_cons, if_neg (by simp [hpa])] at h
      simp only [List.head?_cons, Option.some.injEq] at h
      exact h ▸ hpa

theorem dropWhile_idem (p : Char → Bool) (l : List Char) :
    (l.dropWhile p).dropWhile p = l.dropWhile p :=
  dropWhile_eq_self_of_head p _ (head?_dropWhile_false p l)

theorem trimRight_idem (l : List Char) : trimRight (trimRight l) = trimRight l := by
  simp [trimRight, dropWhile_idem]

theorem trimRight_eq_self_of_last (l : List Char)
    (h : ∀ c, l.getLast? = some c → c.isWhitespace = false) : trimRight l = l := by
  have h₁ : l.reverse.dropWhile (·.isWhitespace) = l.reverse := by
    apply dropWhile_eq_self_of_head
    intro c hc
    exact h c (by rwa [List.head?_reverse] at hc)
  simp [trimRight, h₁]

theorem trimRight_prefix (l : List Char) : trimRight l <+: l := by
  have h : l.reverse.dropWhile (·.isWhitespace) <:+ l.reverse :=
    List.dropWhile_suffix _
  have h₂ := h.reverse
  rwa [List.reverse_reverse] at h₂

theorem head?_trimRight (l : List Char) (c : Char)
    (hc : (trimRight l).head? = some c) : l.head? = some c := by
  have hpre := trimRight_prefix l
  cases l with
  | nil =>
    have : trimRight ([] : List Char) = [] := rfl
    rw [this] at hc; simp at hc
  | cons a as =>
    rcases List.prefix_cons_iff.mp hpre with h0 | ⟨t, ht, _⟩
    · rw [h0] at hc; simp at hc
    · rw [ht] at hc
      simpa using hc

theorem trimChars_idem (l : List Char) : trimChars (trimChars l) = trimChars l := by
  have hhead : ∀ c, (l.dropWhile (·.isWhitespace)).head? = some c → c.isWhitespace = false :=
    head?_dropWhile_false _ l
  have hdrop : (trimRight (l.dropWhile (·.isWhitespace))).dropWhile (·.isWhitespace)
      = trimRight (l.dropWhile (·.isWhitespace)) := by
    apply dropWhile_eq_self_of_head
    intro c hc
    exact hhead c (head?_trimRight _ c hc)
  calc trimChars (trimChars l)
      = trimRight ((trimRight (l.dropWhile (·.isWhitespace))).dropWhile (·.isWhitespace)) := rfl
    _ = trimRight (trimRight (l.dropWhile (·.isWhitespace))) := by rw [hdrop]
    _ = trimChars l := trimRight_idem _

theorem dropWhile_eq_nil_of_all (p : Char → Bool) (w : List Char)
    (h : ∀ c ∈ w, p c = true) : w.dropWhile p = [] := by
  induction w with
  | nil => rfl
  | cons c cs ih =>
    rw [List.dropWhile_cons, if_pos (h c (by simp))]
    exact ih (fun d hd => h d (by simp [hd]))

theorem trimRight_append_ws (x w : List Char)
    (h : ∀ c ∈ w, c.isWhitespace = true) : trimRight (x ++ w) = trimRight x := by
  have hnil : w.reverse.dropWhile (·.isWhitespace) = [] :=
    dropWhile_eq_nil_of_all _ _ (fun c hc => h c (List.mem_reverse.mp hc))
  rw [trimRight, trimRight, List.reverse_append, List.dropWhile_append, hnil]
  simp

theorem trimChars_append_ws (a w : List Char)
    (h : ∀ c ∈ w, c.isWhitespace = true) : trimChars (a ++ w) = trimChars a := by
  rw [trimChars, trimChars, List.dropWhile_append]
  by_cases he : (a.dropWhile (·.isWhitespace)).isEmpty = true
  · rw [if_pos he, dropWhile_eq_nil_of_all _ _ h]
    simp only [List.isEmpty_iff] at he
    rw [he]
  · rw [if_neg he, trimRight_append_ws _ _ h]

theorem edgeClean_trim (s : String) (h : edgeClean s = true) :
    trimChars s.data = s.data := by
  cases hd : s.data with
  | nil => simp [trimChars, trimRight, hd]
  | cons c cs =>
    rw [edgeClean, hd] at h
    simp only [Bool.and_eq_true, Bool.not_eq_true'] at h
    have h₁ : (c :: cs).dropWhile (·.isWhitespace) = c :: cs :=
      dropWhile_eq_self_of_head _ _ (by intro d hd2; simp at hd2; exact hd2 ▸ h.1)
    rw [trimChars, h₁]
    apply trimRight_eq_self_of_last
    intro d hd2
    have : (c :: cs).getLastD 'a' = d := by rw [List.getLastD_eq_getLast?, hd2]; rfl
    exact this ▸ h.2

theorem body_eq_trim_append (l : List Char)
    (hhead : ∀ c, l.head? = some c → c.isWhitespace = false) :
    ∃ w, (∀ c ∈ w, c.isWhitespace = true) ∧ l = trimChars l ++ w := by
  refine ⟨(l.reverse.takeWhile (·.isWhitespace)).reverse, ?_, ?_⟩
  · intro c hc
    exact List.mem_takeWhile_imp (List.mem_reverse.mp hc)
  · have hsplit := List.takeWhile_append_dropWhile (p := (·.isWhitespace)) (l := l.reverse)
    have h₁ : l.dropWhile (·.isWhitespace) = l := dropWhile_eq_self_of_head _ _ hhead
    rw [trimChars, h₁, trimRight]
    calc l = l.reverse.reverse := by simp
      _ = (l.reverse.takeWhile (·.isWhitespace) ++ l.reverse.dropWhile (·.isWhitespace)).reverse := by
          rw [hsplit]
      _ = (l.reverse.dropWhile (·.isWhitespace)).reverse ++ (l.reverse.takeWhile (·.isWhitespace)).reverse := by
          rw [List.reverse_append]

/-! ## Lemmas: splitting -/

theorem splitCh_ne_nil (sep : Char) (l : List Char) : splitCh sep l ≠ [] := by
  induction l with
  | nil => simp [splitCh]
  | cons c cs ih =>
    rw [splitCh]
    by_cases h : c = sep
    · simp [h]
    · rw [if_neg h]
      cases hs : splitCh sep cs with
      | nil => simp
      | cons l ls => simp

theorem splitCh_no_sep (sep : Char) (a : List Char) (h : sep ∉ a) :
    splitCh sep a = [a] := by
  induction a with
  | nil => rfl
  | cons c cs ih =>
    have hc : ¬(c = sep) := fun hc => h (hc ▸ List.mem_cons_self c cs)
    rw [splitCh, if_neg hc, ih (fun hm => h (List.mem_cons_of_mem c hm))]

theorem splitCh_append_sep (sep : Char) (a b : List Char) (h : sep ∉ a) :
    splitCh sep (a ++ sep :: b) = a :: splitCh sep b := by
  induction a with
  | nil => simp [splitCh]
  | cons c cs ih =>
    have hc : ¬(c = sep) := fun hc => h (hc ▸ List.mem_cons_self c cs)
    rw [List.cons_append, splitCh, if_neg hc,
      ih (fun hm => h (List.mem_cons_of_mem c hm))]

theorem appendLast_cons (c : Char) (x : List Char) (L : List (List Char)) (h : L ≠ []) :
    appendLast c (x :: L) = x :: appendLast c L := by
  cases L with
  | nil => exact absurd rfl h
  | cons y ys => rfl

theorem splitCh_append_nl (sep : Char) (u : List Char) :
    splitCh sep (u ++ [sep]) = splitCh sep u ++ [[]] := by
  induction u with
  | nil => simp [splitCh]
  | cons c cs ih =>
    by_cases h : c = sep
    · rw [List.cons_append, splitCh, if_pos h, splitCh, if_pos h, ih]
      rfl
    · rw [List.cons_append, splitCh, if_neg h, splitCh, if_neg h, ih]
      cases hs : splitCh sep cs with
      | nil => exact absurd hs (splitCh_ne_nil sep cs)
      | cons l ls => rfl

theorem splitCh_append_ch (sep c : Char) (hc : ¬(c = sep)) (u : List Char) :
    splitCh sep (u ++ [c]) = appendLast c (splitCh sep u) := by
  induction u with
  | nil =>
    show splitCh sep [c] = appendLast c [[]]
    rw [splitCh, if_neg hc]
    rfl
  | cons a as ih =>
    by_cases h : a = sep
    · rw [List.cons_append, splitCh, if_pos h, splitCh, if_pos h, ih,
        appendLast_cons _ _ _ (splitCh_ne_nil sep as)]
    · rw [List.cons_append, splitCh, if_neg h, splitCh, if_neg h, ih]
      cases hs : splitCh sep as with
      | nil => exact absurd hs (splitCh_ne_nil sep as)
      | cons l ls =>
        cases ls with
        | nil => rfl
        | cons m ms => rfl

/-! ## Lemmas: the parser loop -/

theorem parseLines_cons (line : String) (rest : List String) (i : Nat)
    (st : TaskStatus) (ph : String) :
    parseLines (line :: rest) i st ph =
      taskOut (jsTrim line) i st ph ++
        parseLines rest (i + 1) (lineState (st, ph) line).1 (lineState (st, ph) line).2 := by
  rw [parseLines, taskOut, lineState]
  by_cases h1 : strStarts "# " (jsTrim line) = true
  · simp [h1]
  · by_cases h2 : strStarts "## " (jsTrim line) = true
    · simp [h1, h2]
    · by_cases h3 : strStarts "- " (jsTrim line) = true
      · simp [h1, h2, h3]
      · simp [h1, h2, h3]

theorem statesAfter_cons (s : TaskStatus × String) (l : String) (ls : List String) :
    statesAfter s (l :: ls) = statesAfter (lineState s l) ls := rfl

theorem parseLines_append (a b : List String) : ∀ (i : Nat) (st : TaskStatus) (ph : String),
    parseLines (a ++ b) i st ph =
      parseLines a i st ph ++
        parseLines b (i + a.length) (statesAfter (st, ph) a).1 (statesAfter (st, ph) a).2 := by
  induction a with
  | nil => intro i st ph; simp [parseLines, statesAfter]
  | cons l a ih =>
    intro i st ph
    rw [List.cons_append, parseLines_cons, parseLines_cons, ih, statesAfter_cons]
    have hi : i + 1 + a.length = i + (l :: a).length := by simp; omega
    rw [hi, List.append_assoc]

theorem lineState_congr (s : TaskStatus × String) (l l' : String)
    (h : jsTrim l = jsTrim l') : lineState s l = lineState s l' := by
  simp only [lineState, h]

theorem taskOut_congr (t t' : String) (i : Nat) (st : TaskStatus) (ph : String)
    (h : t = t') : taskOut t i st ph = taskOut t' i st ph := by rw [h]

theorem parseLines_congr : ∀ (ls ls' : List String),
    ls.map jsTrim = ls'.map jsTrim → ∀ (i : Nat) (st : TaskStatus) (ph : String),
    parseLines ls i st ph = parseLines ls' i st ph := by
  intro ls
  induction ls with
  | nil =>
    intro ls' h i st ph
    cases ls' with
    | nil => rfl
    | cons _ _ => simp at h
  | cons l t ih =>
    intro ls' h i st ph
    cases ls' with
    | nil => simp at h
    | cons l' t' =>
      simp only [List.map_cons, List.cons.injEq] at h
      rw [parseLines_cons, parseLines_cons, taskOut_congr _ _ _ _ _ h.1,
        lineState_congr (st, ph) l l' h.1, ih t' h.2]

theorem jsTrim_empty_line : jsTrim "" = "" := rfl

theorem parseLines_empty_line (rest : List String) (i : Nat) (st : TaskStatus) (ph : String) :
    parseLines ("" :: rest) i st ph = parseLines rest (i + 1) st ph := by
  rw [parseLines_cons]
  have h1 : strStarts "# " (jsTrim "") = false := by decide
  have h2 : strStarts "## " (jsTrim "") = false := by decide
  have h3 : strStarts "- " (jsTrim "") = false := by decide
  rw [taskOut, if_neg (by simp [h1]), if_neg (by simp [h2]), if_neg (by simp [h3])]
  have hls : lineState (st, ph) "" = (st, ph) := by
    rw [lineState]
    simp [h1, h2]
  rw [hls, List.nil_append]

/-! ## Lemmas: parsing ignores trailing whitespace -/

theorem parse_append_nl (u : List Char) :
    parseImplementationPlan ⟨u ++ ['\n']⟩ = parseImplementationPlan ⟨u⟩ := by
  rw [parseImplementationPlan, parseImplementationPlan]
  show parseLines ((splitCh '\n' (u ++ ['\n'])).map _) 0 .Backlog "General" =
    parseLines ((splitCh '\n' u).map _) 0 .Backlog "General"
  rw [splitCh_append_nl, List.map_append, parseLines_append]
  show _ ++ parseLines [("" : String)] _ _ _ = _
  rw [parseLines_empty_line, parseLines, List.append_nil]

theorem appendLast_map_trim (c : Char) (hws : c.isWhitespace = true) :
    ∀ (S : List (List Char)), S ≠ [] →
      (appendLast c S).map (fun l => jsTrim ⟨l⟩) = S.map (fun l => jsTrim ⟨l⟩) := by
  intro S
  induction S with
  | nil => intro h; exact absurd rfl h
  | cons l ls ih =>
    intro _
    cases ls with
    | nil =>
      show [jsTrim ⟨l ++ [c]⟩] = [jsTrim ⟨l⟩]
      rw [jsTrim, jsTrim]
      have : trimChars (l ++ [c]) = trimChars l :=
        trimChars_append_ws l [c] (by intro d hd; simp at hd; rw [hd]; exact hws)
      rw [show (⟨l ++ [c]⟩ : String).data = l ++ [c] from rfl, this]
    | cons m ms =>
      rw [appendLast_cons c l (m :: ms) (by simp), List.map_cons, List.map_cons,
        ih (by simp)]

theorem parse_append_ws_ch (u : List Char) (c : Char) (hws : c.isWhitespace = true) :
    parseImplementationPlan ⟨u ++ [c]⟩ = parseImplementationPlan ⟨u⟩ := by
  by_cases hnl : c = '\n'
  · rw [hnl]; exact parse_append_nl u
  · rw [parseImplementationPlan, parseImplementationPlan]
    show parseLines ((splitCh '\n' (u ++ [c])).map _) 0 .Backlog "General" =
      parseLines ((splitCh '\n' u).map _) 0 .Backlog "General"
    rw [splitCh_append_ch '\n' c hnl u]
    apply parseLines_congr
    have h₁ : ∀ (S : List (List Char)),
        (S.map (fun l => (⟨l⟩ : String))).map jsTrim = S.map (fun l => jsTrim ⟨l⟩) := by
      intro S; rw [List.map_map]; rfl
    have h₂ : List.map jsTrim ((appendLast c (splitCh '\n' u)).map (fun l => (⟨l⟩ : String)))
        = List.map jsTrim ((splitCh '\n' u).map (fun l => (⟨l⟩ : String))) := by
      rw [h₁, h₁]
      exact appendLast_map_trim c hws (splitCh '\n' u) (splitCh_ne_nil '\n' u)
    exact h₂

theorem parse_append_ws (w : List Char) : ∀ (u : List Char),
    (∀ c ∈ w, c.isWhitespace = true) →
    parseImplementationPlan ⟨u ++ w⟩ = parseImplementationPlan ⟨u⟩ := by
  induction w with
  | nil => intro u _; rw [List.append_nil]
  | cons c cs ih =>
    intro u hw
    have : u ++ c :: cs = (u ++ [c]) ++ cs := by simp
    rw [this, ih (u ++ [c]) (fun d hd => hw d (by simp [hd])),
      parse_append_ws_ch u c (hw c (by simp))]

/-! ## Lemmas: parsing a generated body -/

theorem parse_flatten_lines (ls : List String) (hnl : ∀ l ∈ ls, noNl l = true) :
    parseImplementationPlan ⟨((ls.map (fun l => l.data ++ ['\n'])).flatten)⟩ =
      parseLines ls 0 .Backlog "General" := by
  have hsplit : ∀ (ms : List String), (∀ l ∈ ms, noNl l = true) →
      splitCh '\n' ((ms.map (fun l => l.data ++ ['\n'])).flatten) = ms.map String.data ++ [[]] := by
    intro ms
    induction ms with
    | nil => intro _; rfl
    | cons l t iht =>
      intro hm
      have hmem : '\n' ∉ l.data := by
        intro hx
        have := (List.all_eq_true.mp (hm l (by simp))) '\n' hx
        simp at this
      show splitCh '\n' ((l.data ++ ['\n']) ++ _) = _
      rw [List.append_assoc, List.singleton_append, splitCh_append_sep '\n' _ _ hmem,
        iht (fun x hx => hm x (by simp [hx]))]
      rfl
  rw [parseImplementationPlan]
  show parseLines ((splitCh '\n' ((ls.map (fun l => l.data ++ ['\n'])).flatten)).map _) 0 _ _ = _
  rw [hsplit ls hnl, List.map_append, parseLines_append]
  have hid : (ls.map String.data).map (fun l => (⟨l⟩ : String)) = ls := by
    rw [List.map_map]
    have : ((fun l => (⟨l⟩ : String)) ∘ String.data) = id := funext fun s => rfl
    rw [this, List.map_id]
  rw [hid]
  show _ ++ parseLines [("" : String)] _ _ _ = _
  rw [parseLines_empty_line, parseLines, List.append_nil]

theorem parse_generated (ls : List String) (hnl : ∀ l ∈ ls, noNl l = true)
    (hhead : ∀ l₀, ls.head? = some l₀ → l₀.data.head? = some '#') :
    parseImplementationPlan ⟨trimChars ((ls.map (fun l => l.data ++ ['\n'])).flatten) ++ ['\n']⟩ =
      parseLines ls 0 .Backlog "General" := by
  cases hls : ls with
  | nil =>
    show parseImplementationPlan ⟨trimChars [] ++ ['\n']⟩ = _
    show parseImplementationPlan ⟨['\n']⟩ = _
    have : (['\n'] : List Char) = [] ++ ['\n'] := rfl
    rw [this, parse_append_nl]
    rfl
  | cons l₀ t =>
    rw [← hls]
    set body := (ls.map (fun l => l.data ++ ['\n'])).flatten with hbody
    have hheadbody : ∀ c, body.head? = some c → c.isWhitespace = false := by
      intro c hc
      have h₀ : l₀.data.head? = some '#' := hhead l₀ (by rw [hls]; rfl)
      cases hld : l₀.data with
      | nil => rw [hld] at h₀; simp at h₀
      | cons d ds =>
        rw [hld] at h₀
        simp only [List.head?_cons, Option.some.injEq] at h₀
        have : body = d :: (ds ++ ['\n'] ++ (t.map (fun l => l.data ++ ['\n'])).flatten) := by
          rw [hbody, hls, List.map_cons, List.flatten_cons, hld]
          simp
        rw [this] at hc
        simp only [List.head?_cons, Option.some.injEq] at hc
        rw [← hc, h₀]
        decide
    obtain ⟨w, hw, hweq⟩ := body_eq_trim_append body hheadbody
    calc parseImplementationPlan ⟨trimChars body ++ ['\n']⟩
        = parseImplementationPlan ⟨trimChars body⟩ :=
          parse_append_ws ['\n'] (trimChars body) (by intro c hc; simp at hc; rw [hc]; decide)
      _ = parseImplementationPlan ⟨trimChars body ++ w⟩ :=
          (parse_append_ws w (trimChars body) hw).symm
      _ = parseImplementationPlan ⟨body⟩ := by rw [← hweq]
      _ = parseLines ls 0 .Backlog "General" := parse_flatten_lines ls hnl

/-! ## Lemmas: classifying generated lines -/

theorem trimChars_eq_self (l : List Char)
    (hh : ∀ c, l.head? = some c → c.isWhitespace = false)
    (hl : ∀ c, l.getLast? = some c → c.isWhitespace = false) : trimChars l = l := by
  rw [trimChars, dropWhile_eq_self_of_head _ _ hh]
  exact trimRight_eq_self_of_last l hl

theorem edgeClean_head (s : String) (h : edgeClean s = true) :
    ∀ c, s.data.head? = some c → c.isWhitespace = false := by
  intro c hc
  cases hd : s.data with
  | nil => rw [hd] at hc; simp at hc
  | cons a as =>
    rw [edgeClean, hd] at h
    simp only [Bool.and_eq_true, Bool.not_eq_true'] at h
    rw [hd] at hc
    simp only [List.head?_cons, Option.some.injEq] at hc
    exact hc ▸ h.1

theorem edgeClean_last (s : String) (h : edgeClean s = true) :
    ∀ c, s.data.getLast? = some c → c.isWhitespace = false := by
  intro c hc
  cases hd : s.data with
  | nil => rw [hd] at hc; simp at hc
  | cons a as =>
    rw [edgeClean, hd] at h
    simp only [Bool.and_eq_true, Bool.not_eq_true'] at h
    rw [hd] at hc
    have hgl : (a :: as).getLastD 'a' = c := by
      rw [List.getLastD_eq_getLast?, hc]
      rfl
    exact hgl ▸ h.2

theorem jsTrim_edgeClean (s : String) (h : edgeClean s = true) : jsTrim s = s := by
  rw [jsTrim, edgeClean_trim s h]

theorem trimChars_space_cons (l : List Char) : trimChars (' ' :: l) = trimChars l := by
  rw [trimChars, List.dropWhile_cons, if_pos (by decide)]
  rfl

/-! ### Status heading lines -/

theorem statusLine_trim (st : TaskStatus) :
    jsTrim ("# " ++ statusText st) = "# " ++ statusText st := by
  cases st <;> decide

theorem statusLine_starts (st : TaskStatus) :
    strStarts "# " ("# " ++ statusText st) = true := by
  cases st <;> decide

theorem statusLine_value (st : TaskStatus) :
    getStatusFromString (jsTrim (strDrop 2 ("# " ++ statusText st))) = st := by
  cases st <;> decide

theorem lineState_statusLine (s : TaskStatus × String) (st : TaskStatus) :
    lineState s ("# " ++ statusText st) = (st, "General") := by
  rw [lineState, statusLine_trim st, if_pos (statusLine_starts st), statusLine_value st]

theorem taskOut_of_hash (t : String) (h : strStarts "# " t = true)
    (i : Nat) (st : TaskStatus) (ph : String) : taskOut t i st ph = [] := by
  rw [taskOut, if_pos h]

/-! ### Phase heading lines -/

theorem phaseLine_data (ph : String) :
    ("## " ++ ph).data = '#' :: '#' :: ' ' :: ph.data := by
  rw [String.data_append]
  rfl

theorem phaseLine_trim (ph : String) (hec : edgeClean ph = true) (hne : ¬(ph = "")) :
    jsTrim ("## " ++ ph) = "## " ++ ph := by
  have hdat : ph.data ≠ [] := by
    intro h0
    exact hne (show ph = "" from String.ext h0)
  rw [jsTrim, phaseLine_data]
  have heq : trimChars ('#' :: '#' :: ' ' :: ph.data) = '#' :: '#' :: ' ' :: ph.data := by
    apply trimChars_eq_self
    · intro c hc
      simp only [List.head?_cons, Option.some.injEq] at hc
      rw [← hc]; decide
    · intro c hc
      have : ('#' :: '#' :: ' ' :: ph.data).getLast? = ph.data.getLast? := by
        have := List.getLast?_append_of_ne_nil ['#', '#', ' '] hdat
        simpa using this
      rw [this] at hc
      exact edgeClean_last ph hec c hc
  rw [heq, ← phaseLine_data]

theorem phaseLine_not_status (ph : String) :
    strStarts "# " ("## " ++ ph) = false := by
  rw [strStarts, phaseLine_data]
  simp [List.isPrefixOf]

theorem phaseLine_starts (ph : String) :
    strStarts "## " ("## " ++ ph) = true := by
  rw [strStarts, phaseLine_data]
  simp [List.isPrefixOf]

theorem phaseLine_value (ph : String) (hec : edgeClean ph = true) :
    jsTrim (strDrop 3 ("## " ++ ph)) = ph := by
  rw [strDrop, phaseLine_data]
  show jsTrim ⟨ph.data⟩ = ph
  exact jsTrim_edgeClean ph hec

theorem lineState_phaseLine (s : TaskStatus × String) (ph : String)
    (hec : edgeClean ph = true) (hne : ¬(ph = "")) :
    lineState s ("## " ++ ph) = (s.1, ph) := by
  rw [lineState, phaseLine_trim ph hec hne, if_neg (by simp [phaseLine_not_status]),
    if_pos (phaseLine_starts ph), phaseLine_value ph hec]

theorem taskOut_phaseLine (ph : String) (hec : edgeClean ph = true) (hne : ¬(ph = ""))
    (i : Nat) (st : TaskStatus) (ph' : String) :
    taskOut (jsTrim ("## " ++ ph)) i st ph' = [] := by
  rw [phaseLine_trim ph hec hne, taskOut, if_neg (by simp [phaseLine_not_status]),
    if_pos (phaseLine_starts ph)]

/-! ### Task lines -/

theorem priorityText_edgeClean (p : Priority) : edgeClean (priorityText p) = true := by
  cases p <;> decide

theorem priorityText_ne_empty (p : Priority) : ¬(priorityText p = "") := by
  cases p <;> decide

theorem priorityText_no_comma (p : Priority) : ',' ∉ (priorityText p).data := by
  cases p <;> decide

theorem priorityText_data_ne_nil (p : Priority) : (priorityText p).data ≠ [] := by
  cases p <;> decide

theorem getPriority_of_text (p : Priority) :
    getPriorityFromString (priorityText p) = p := by
  cases p <;> decide

theorem noComma_not_mem (s : String) (h : noComma s = true) : ',' ∉ s.data := by
  intro hx
  have := (List.all_eq_true.mp h) ',' hx
  simp at this

theorem noNl_not_mem (s : String) (h : noNl s = true) : '\n' ∉ s.data := by
  intro hx
  have := (List.all_eq_true.mp h) '\n' hx
  simp at this

/-- The decomposed character list of one emitted task line. -/
theorem taskLine_data (t : Task) :
    (taskLine t).data = '-' :: ' ' ::
      (t.subPhase.data ++ ',' :: ((' ' :: t.id.data) ++ ',' :: ((' ' :: t.description.data)
        ++ ',' :: (' ' :: (priorityText t.priority).data)))) := by
  rw [taskLine]
  simp [String.data_append]

theorem wf_fields (t : Task) (h : wellFormedTask t = true) :
    (noComma t.subPhase = true ∧ noNl t.subPhase = true ∧ edgeClean t.subPhase = true) ∧
    (noComma t.id = true ∧ noNl t.id = true ∧ edgeClean t.id = true ∧ ¬(t.id = "") ∧
      strStarts "partial-" t.id = false) ∧
    (noComma t.description = true ∧ noNl t.description = true ∧
      edgeClean t.description = true ∧ ¬(t.description = "")) ∧
    (noNl t.phase = true ∧ edgeClean t.phase = true ∧ ¬(t.phase = "")) := by
  rw [wellFormedTask] at h
  simp only [Bool.and_eq_true, Bool.not_eq_true', beq_eq_false_iff_ne, ne_eq] at h
  obtain ⟨⟨⟨⟨⟨⟨⟨⟨⟨⟨⟨⟨⟨⟨h1, h2⟩, h3⟩, h4⟩, h5⟩, h6⟩, h7⟩, h8⟩, h9⟩, h10⟩, h11⟩, h12⟩, h13⟩, h14⟩, h15⟩ := h
  exact ⟨⟨h1, h2, h3⟩, ⟨h4, h5, h6, h7, h8⟩, ⟨h9, h10, h11, h12⟩, ⟨h13, h14, h15⟩⟩

theorem taskLine_split (t : Task) (h : wellFormedTask t = true) :
    splitCh ',' (strDrop 2 (taskLine t)).data =
      [t.subPhase.data, ' ' :: t.id.data, ' ' :: t.description.data,
        ' ' :: (priorityText t.priority).data] := by
  obtain ⟨⟨hsc, _, _⟩, ⟨hic, _, _, _, _⟩, ⟨hdc, _, _, _⟩, _⟩ := wf_fields t h
  have hdat : (strDrop 2 (taskLine t)).data =
      t.subPhase.data ++ ',' :: ((' ' :: t.id.data) ++ ',' :: ((' ' :: t.description.data)
        ++ ',' :: (' ' :: (priorityText t.priority).data))) := by
    show ((taskLine t).data.drop 2) = _
    rw [taskLine_data]
    rfl
  rw [hdat, splitCh_append_sep ',' _ _ (noComma_not_mem _ hsc),
    splitCh_append_sep ',' _ _ (by
      intro hx
      rcases List.mem_cons.mp hx with h0 | h0
      · simp at h0
      · exact noComma_not_mem _ hic h0),
    splitCh_append_sep ',' _ _ (by
      intro hx
      rcases List.mem_cons.mp hx with h0 | h0
      · simp at h0
      · exact noComma_not_mem _ hdc h0),
    splitCh_no_sep ',' _ (by
      intro hx
      rcases List.mem_cons.mp hx with h0 | h0
      · simp at h0
      · exact priorityText_no_comma t.priority h0)]

theorem taskLine_trim (t : Task) :
    jsTrim (taskLine t) = taskLine t := by
  rw [jsTrim]
  have heq : trimChars (taskLine t).data = (taskLine t).data := by
    apply trimChars_eq_self
    · intro c hc
      rw [taskLine_data] at hc
      simp only [List.head?_cons, Option.some.injEq] at hc
      rw [← hc]; decide
    · intro c hc
      rw [taskLine_data] at hc
      have hlast : ('-' :: ' ' ::
          (t.subPhase.data ++ ',' :: ((' ' :: t.id.data) ++ ',' :: ((' ' :: t.description.data)
            ++ ',' :: (' ' :: (priorityText t.priority).data))))).getLast? =
          (priorityText t.priority).data.getLast? := by
        have h₁ := List.getLast?_append_of_ne_nil
          ('-' :: ' ' :: t.subPhase.data ++ ',' :: (' ' :: t.id.data) ++
            ',' :: (' ' :: t.description.data) ++ [',', ' '])
          (priorityText_data_ne_nil t.priority)
        rw [← h₁]
        congr 1
        simp
      rw [hlast] at hc
      exact edgeClean_last _ (priorityText_edgeClean t.priority) c hc
  rw [heq]

theorem taskLine_not_status (t : Task) : strStarts "# " (taskLine t) = false := by
  rw [strStarts, taskLine_data]
  simp [List.isPrefixOf]

theorem taskLine_not_phase (t : Task) : strStarts "## " (taskLine t) = false := by
  rw [strStarts, taskLine_data]
  simp [List.isPrefixOf]

theorem taskLine_starts (t : Task) : strStarts "- " (taskLine t) = true := by
  rw [strStarts, taskLine_data]
  simp [List.isPrefixOf]

theorem mkParsedTask_taskLine (t : Task) (h : wellFormedTask t = true)
    (i : Nat) (st : TaskStatus) (ph : String) :
    mkParsedTask (taskLine t) i st ph =
      { id := t.id, description := t.description, status := st, phase := ph,
        subPhase := t.subPhase, priority := t.priority, subProjectId := none } := by
  obtain ⟨⟨_, _, hse⟩, ⟨_, _, hie, hin, _⟩, ⟨_, _, hde, hdn⟩, _⟩ := wf_fields t h
  rw [mkParsedTask, taskLine_split t h]
  have hsub : (⟨trimChars t.subPhase.data⟩ : String) = t.subPhase := by
    rw [edgeClean_trim _ hse]
  have hid : (⟨trimChars (' ' :: t.id.data)⟩ : String) = t.id := by
    rw [trimChars_space_cons, edgeClean_trim _ hie]
  have hdesc : (⟨trimChars (' ' :: t.description.data)⟩ : String) = t.description := by
    rw [trimChars_space_cons, edgeClean_trim _ hde]
  have hpr : (⟨trimChars (' ' :: (priorityText t.priority).data)⟩ : String) =
      priorityText t.priority := by
    rw [trimChars_space_cons, edgeClean_trim _ (priorityText_edgeClean t.priority)]
  simp only [List.map_cons, List.map_nil, hsub, hid, hdesc, hpr,
    List.getD_cons_zero, List.getD_cons_succ]
  rw [if_neg hin, if_neg hdn, if_neg (priorityText_ne_empty t.priority),
    getPriority_of_text t.priority]

theorem taskOut_taskLine (t : Task) (h : wellFormedTask t = true)
    (i : Nat) (st : TaskStatus) (ph : String) :
    taskOut (jsTrim (taskLine t)) i st ph =
      [{ id := t.id, description := t.description, status := st, phase := ph,
         subPhase := t.subPhase, priority := t.priority, subProjectId := none }] := by
  rw [taskLine_trim t, taskOut, if_neg (by simp [taskLine_not_status]),
    if_neg (by simp [taskLine_not_phase]), if_pos (taskLine_starts t),
    mkParsedTask_taskLine t h]

theorem lineState_taskLine (s : TaskStatus × String) (t : Task) :
    lineState s (taskLine t) = s := by
  rw [lineState, taskLine_trim t, if_neg (by simp [taskLine_not_status]),
    if_neg (by simp [taskLine_not_phase])]

/-! ## Lemmas: membership in key enumerations -/

theorem mem_insertAsc (x y : String) (l : List String) :
    y ∈ insertAsc x l → y = x ∨ y ∈ l := by
  induction l with
  | nil => intro h; simp [insertAsc] at h; exact Or.inl h
  | cons a as ih =>
    intro h
    rw [insertAsc] at h
    by_cases hc : strToNat x ≤ strToNat a
    · rw [if_pos hc] at h
      rcases List.mem_cons.mp h with h0 | h0
      · exact Or.inl h0
      · exact Or.inr h0
    · rw [if_neg hc] at h
      rcases List.mem_cons.mp h with h0 | h0
      · exact Or.inr (h0 ▸ List.mem_cons_self a as)
      · rcases ih h0 with h1 | h1
        · exact Or.inl h1
        · exact Or.inr (List.mem_cons_of_mem a h1)

theorem mem_sortAsc (y : String) (l : List String) : y ∈ sortAsc l → y ∈ l := by
  induction l with
  | nil => intro h; simp [sortAsc] at h
  | cons a as ih =>
    intro h
    rw [sortAsc] at h
    rcases mem_insertAsc a y (sortAsc as) h with h0 | h0
    · exact h0 ▸ List.mem_cons_self a as
    · exact List.mem_cons_of_mem a (ih h0)

theorem mem_orderedKeys (y : String) (ks : List String) :
    y ∈ orderedKeys ks → y ∈ ks := by
  intro h
  rw [orderedKeys] at h
  rcases List.mem_append.mp h with h0 | h0
  · exact (List.mem_filter.mp (mem_sortAsc y _ h0)).1
  · exact (List.mem_filter.mp h0).1

theorem mem_firstSeenAux (y : String) : ∀ (l seen : List String),
    y ∈ firstSeenAux l seen → y ∈ l := by
  intro l
  induction l with
  | nil => intro seen h; simp [firstSeenAux] at h
  | cons a as ih =>
    intro seen h
    rw [firstSeenAux] at h
    by_cases hc : a ∈ seen
    · rw [if_pos hc] at h
      exact List.mem_cons_of_mem a (ih seen h)
    · rw [if_neg hc] at h
      rcases List.mem_cons.mp h with h0 | h0
      · exact h0 ▸ List.mem_cons_self a as
      · exact List.mem_cons_of_mem a (ih (a :: seen) h0)

theorem mem_firstSeen (y : String) (l : List String) : y ∈ firstSeen l → y ∈ l :=
  mem_firstSeenAux y l []

theorem mem_phaseKeys (ct : List Task) (k : String) (h : k ∈ phaseKeys ct) :
    ∃ t ∈ ct, t.phase = k := by
  rw [phaseKeys] at h
  have h₁ := mem_firstSeen k _ (mem_orderedKeys k _ h)
  rcases List.mem_map.mp h₁ with ⟨t, ht, hk⟩
  exact ⟨t, ht, hk⟩

theorem mem_completeOf (tasks : List Task) (st : TaskStatus) (t : Task)
    (h : t ∈ completeOf tasks st) : t ∈ tasks ∧ t.status = st := by
  rw [completeOf] at h
  have h₁ := List.mem_filter.mp h
  have h₂ := List.mem_filter.mp h₁.1
  exact ⟨h₂.1, by simpa using h₂.2⟩

/-! ## Lemmas: parsing the generated blocks -/

theorem parse_taskLines (pts : List Task) (hwf : ∀ t ∈ pts, wellFormedTask t = true) :
    ∀ (rest : List String) (i : Nat) (st : TaskStatus) (ph : String),
    parseLines (pts.map taskLine ++ rest) i st ph =
      pts.map (fun t =>
        { id := t.id, description := t.description, status := st, phase := ph,
          subPhase := t.subPhase, priority := t.priority, subProjectId := none }) ++
        parseLines rest (i + pts.length) st ph := by
  induction pts with
  | nil => intro rest i st ph; simp
  | cons t ts ih =>
    intro rest i st ph
    rw [List.map_cons, List.cons_append, parseLines_cons,
      lineState_taskLine (st, ph) t,
      taskOut_taskLine t (hwf t (by simp)) i st ph,
      ih (fun x hx => hwf x (by simp [hx])) rest (i + 1) st ph]
    have hi : i + 1 + ts.length = i + (t :: ts).length := by simp; omega
    rw [hi]
    rfl

theorem parse_phaseBlock (ct : List Task) (ph : String)
    (hec : edgeClean ph = true) (hne : ¬(ph = ""))
    (hwf : ∀ t ∈ ct, wellFormedTask t = true)
    (rest : List String) (i : Nat) (st : TaskStatus) (ph₀ : String) :
    ∃ j, parseLines (phaseBlockLines ct ph ++ rest) i st ph₀ =
      (ct.filter (fun t => t.phase = ph)).map (reStat st) ++ parseLines rest j st ph := by
  refine ⟨i + 1 + (ct.filter (fun t => t.phase = ph)).length + 1, ?_⟩
  rw [phaseBlockLines, List.cons_append, parseLines_cons,
    taskOut_phaseLine ph hec hne i st ph₀, List.nil_append]
  have hls : lineState (st, ph₀) ("## " ++ ph) = (st, ph) :=
    lineState_phaseLine (st, ph₀) ph hec hne
  rw [hls, List.append_assoc, List.singleton_append,
    parse_taskLines _ (fun x hx => hwf x (List.mem_filter.mp hx).1) ("" :: rest) (i + 1) st ph,
    parseLines_empty_line]
  have hmap : (ct.filter (fun t => t.phase = ph)).map (fun t =>
      { id := t.id, description := t.description, status := st, phase := ph,
        subPhase := t.subPhase, priority := t.priority, subProjectId := none }) =
      (ct.filter (fun t => t.phase = ph)).map (reStat st) := by
    apply List.map_congr_left
    intro t ht
    have hph : t.phase = ph := by simpa using (List.mem_filter.mp ht).2
    rw [reStat, hph]
  rw [hmap]

theorem parse_phaseBlocks (ct : List Task)
    (hwf : ∀ t ∈ ct, wellFormedTask t = true) :
    ∀ (keys : List String), (∀ k ∈ keys, edgeClean k = true ∧ ¬(k = "")) →
    ∀ (rest : List String) (i : Nat) (st : TaskStatus) (ph₀ : String),
    ∃ j ph₁, parseLines ((keys.map (phaseBlockLines ct)).flatten ++ rest) i st ph₀ =
      ((keys.map (fun ph => ct.filter (fun t => t.phase = ph))).flatten).map (reStat st) ++
        parseLines rest j st ph₁ := by
  intro keys
  induction keys with
  | nil =>
    intro _ rest i st ph₀
    exact ⟨i, ph₀, by simp⟩
  | cons k ks ih =>
    intro hkeys rest i st ph₀
    obtain ⟨hk1, hk2⟩ := hkeys k (by simp)
    rw [List.map_cons, List.flatten_cons, List.append_assoc]
    obtain ⟨j₁, heq₁⟩ := parse_phaseBlock ct k hk1 hk2 hwf
      ((ks.map (phaseBlockLines ct)).flatten ++ rest) i st ph₀
    obtain ⟨j₂, ph₂, heq₂⟩ := ih (fun x hx => hkeys x (by simp [hx])) rest j₁ st k
    refine ⟨j₂, ph₂, ?_⟩
    rw [heq₁, heq₂, List.map_cons, List.flatten_cons, List.map_append, List.append_assoc]

theorem parse_statusBlock (tasks : List Task) (st : TaskStatus)
    (hwf : ∀ t ∈ tasks, wellFormedTask t = true)
    (rest : List String) (i : Nat) (st₀ : TaskStatus) (ph₀ : String) :
    ∃ j st₁ ph₁, parseLines (statusBlockLines tasks st ++ rest) i st₀ ph₀ =
      (statusGroup tasks st).map stripSub ++ parseLines rest j st₁ ph₁ := by
  have hwfct : ∀ t ∈ completeOf tasks st, wellFormedTask t = true :=
    fun t ht => hwf t (mem_completeOf tasks st t ht).1
  by_cases hct : completeOf tasks st = []
  · refine ⟨i, st₀, ph₀, ?_⟩
    rw [statusBlockLines, if_pos hct, statusGroup]
    show parseLines rest i st₀ ph₀ =
      (((phaseKeys (completeOf tasks st)).map
        (fun ph => (completeOf tasks st).filter (fun t => t.phase = ph))).flatten).map stripSub ++
        parseLines rest i st₀ ph₀
    rw [hct]
    have h0 : phaseKeys ([] : List Task) = [] := rfl
    rw [h0]
    rfl
  · rw [statusBlockLines, if_neg hct]
    show ∃ j st₁ ph₁,
      parseLines ((("# " ++ statusText st) ::
        ((phaseKeys (completeOf tasks st)).map (phaseBlockLines (completeOf tasks st))).flatten) ++ rest)
        i st₀ ph₀ = _
    rw [List.cons_append, parseLines_cons,
      taskOut_of_hash _ (by rw [statusLine_trim st]; exact statusLine_starts st) i st₀ ph₀,
      List.nil_append, lineState_statusLine (st₀, ph₀) st]
    have hkeys : ∀ k ∈ phaseKeys (completeOf tasks st), edgeClean k = true ∧ ¬(k = "") := by
      intro k hk
      obtain ⟨t, ht, hph⟩ := mem_phaseKeys _ k hk
      obtain ⟨_, _, _, hphw⟩ := wf_fields t (hwfct t ht)
      exact ⟨hph ▸ hphw.2.1, hph ▸ hphw.2.2⟩
    obtain ⟨j, ph₁, heq⟩ := parse_phaseBlocks (completeOf tasks st) hwfct
      (phaseKeys (completeOf tasks st)) hkeys rest (i + 1) st "General"
    refine ⟨j, st, ph₁, ?_⟩
    rw [heq, statusGroup]
    have hmap : ∀ t ∈ (((phaseKeys (completeOf tasks st)).map
        (fun ph => (completeOf tasks st).filter (fun t => t.phase = ph))).flatten),
        reStat st t = stripSub t := by
      intro t ht
      rcases List.mem_flatten.mp ht with ⟨b, hb, htb⟩
      rcases List.mem_map.mp hb with ⟨ph, _, hbeq⟩
      have htc : t ∈ completeOf tasks st := by
        rw [← hbeq] at htb
        exact (List.mem_filter.mp htb).1
      have hst : t.status = st := (mem_completeOf tasks st t htc).2
      rw [reStat, stripSub, ← hst]
    rw [List.map_congr_left hmap]

theorem parse_statusBlocks (tasks : List Task)
    (hwf : ∀ t ∈ tasks, wellFormedTask t = true) :
    ∀ (sts : List TaskStatus) (i : Nat) (st₀ : TaskStatus) (ph₀ : String),
    parseLines ((sts.map (statusBlockLines tasks)).flatten) i st₀ ph₀ =
      ((sts.map (statusGroup tasks)).flatten).map stripSub := by
  intro sts
  induction sts with
  | nil => intro i st₀ ph₀; rfl
  | cons st sts ih =>
    intro i st₀ ph₀
    rw [List.map_cons, List.flatten_cons]
    obtain ⟨j, st₁, ph₁, heq⟩ := parse_statusBlock tasks st hwf
      ((sts.map (statusBlockLines tasks)).flatten) i st₀ ph₀
    rw [heq, ih j st₁ ph₁, List.map_cons, List.flatten_cons, List.map_append]

/-! ## Lemmas: the shape of the generated lines -/

theorem mem_taskLine_data (t : Task) (c : Char) (hc : c ∈ (taskLine t).data) :
    c = '-' ∨ c = ' ' ∨ c = ',' ∨ c ∈ t.subPhase.data ∨ c ∈ t.id.data ∨
      c ∈ t.description.data ∨ c ∈ (priorityText t.priority).data := by
  rw [taskLine_data] at hc
  simp only [List.mem_cons, List.mem_append] at hc
  tauto

theorem priorityText_noNl (p : Priority) : noNl (priorityText p) = true := by
  cases p <;> decide

theorem taskLine_noNl (t : Task) (h : wellFormedTask t = true) :
    noNl (taskLine t) = true := by
  obtain ⟨⟨_, hsn, _⟩, ⟨_, hin, _, _, _⟩, ⟨_, hdn, _, _⟩, _⟩ := wf_fields t h
  rw [noNl]
  apply List.all_eq_true.mpr
  intro c hc
  have hmem : ∀ (s : String), noNl s = true → c ∈ s.data → decide (c ≠ '\n') = true :=
    fun s hs hcs => List.all_eq_true.mp hs c hcs
  rcases mem_taskLine_data t c hc with h0 | h0 | h0 | h0 | h0 | h0 | h0
  · rw [h0]; decide
  · rw [h0]; decide
  · rw [h0]; decide
  · exact hmem _ hsn h0
  · exact hmem _ hin h0
  · exact hmem _ hdn h0
  · exact hmem _ (priorityText_noNl t.priority) h0

theorem statusLine_noNl (st : TaskStatus) : noNl ("# " ++ statusText st) = true := by
  cases st <;> decide

theorem phaseLine_noNl (ph : String) (h : noNl ph = true) :
    noNl ("## " ++ ph) = true := by
  rw [noNl]
  apply List.all_eq_true.mpr
  intro c hc
  rw [phaseLine_data] at hc
  simp only [List.mem_cons] at hc
  rcases hc with h0 | h0 | h0 | h0
  · rw [h0]; decide
  · rw [h0]; decide
  · rw [h0]; decide
  · exact List.all_eq_true.mp h c h0

theorem mem_genLines (tasks : List Task) (l : String) (hl : l ∈ genLines tasks) :
    (∃ st, l = "# " ++ statusText st) ∨
      (∃ ph, (∃ t ∈ tasks, t.phase = ph) ∧ l = "## " ++ ph) ∨
      (∃ t ∈ tasks, l = taskLine t) ∨ l = "" := by
  rw [genLines] at hl
  rcases List.mem_flatten.mp hl with ⟨b, hb, hlb⟩
  rcases List.mem_map.mp hb with ⟨st, _, hbeq⟩
  rw [← hbeq, statusBlockLines] at hlb
  by_cases hct : completeOf tasks st = []
  · rw [if_pos hct] at hlb
    simp at hlb
  · rw [if_neg hct] at hlb
    rcases List.mem_cons.mp hlb with h0 | h0
    · exact Or.inl ⟨st, h0⟩
    · rcases List.mem_flatten.mp h0 with ⟨pb, hpb, hlpb⟩
      rcases List.mem_map.mp hpb with ⟨ph, hph, hpbeq⟩
      rw [← hpbeq, phaseBlockLines] at hlpb
      rcases List.mem_cons.mp hlpb with h1 | h1
      · refine Or.inr (Or.inl ⟨ph, ?_, h1⟩)
        obtain ⟨t, ht, hphase⟩ := mem_phaseKeys _ ph hph
        exact ⟨t, (mem_completeOf tasks st t ht).1, hphase⟩
      · rcases List.mem_append.mp h1 with h2 | h2
        · rcases List.mem_map.mp h2 with ⟨x, hx, hxeq⟩
          have hxc : x ∈ completeOf tasks st := (List.mem_filter.mp hx).1
          exact Or.inr (Or.inr (Or.inl ⟨x, (mem_completeOf tasks st x hxc).1, hxeq.symm⟩))
        · simp only [List.mem_singleton] at h2
          exact Or.inr (Or.inr (Or.inr h2))

theorem genLines_noNl (tasks : List Task) (hwf : ∀ t ∈ tasks, wellFormedTask t = true) :
    ∀ l ∈ genLines tasks, noNl l = true := by
  intro l hl
  rcases mem_genLines tasks l hl with ⟨st, h0⟩ | ⟨ph, ⟨t, ht, hph⟩, h0⟩ | ⟨t, ht, h0⟩ | h0
  · exact h0 ▸ statusLine_noNl st
  · obtain ⟨_, _, _, hphw⟩ := wf_fields t (hwf t ht)
    exact h0 ▸ phaseLine_noNl ph (hph ▸ hphw.1)
  · exact h0 ▸ taskLine_noNl t (hwf t ht)
  · rw [h0]; decide

theorem flatten_head_hash (blocks : List (List String))
    (hb : ∀ b ∈ blocks, b = [] ∨ ∃ s r, b = ("# " ++ s) :: r) :
    ∀ l₀, blocks.flatten.head? = some l₀ → ∃ s, l₀ = "# " ++ s := by
  induction blocks with
  | nil => intro l₀ h; simp at h
  | cons b bs ih =>
    intro l₀ h
    rcases hb b (by simp) with h0 | ⟨s, r, h0⟩
    · rw [List.flatten_cons, h0, List.nil_append] at h
      exact ih (fun x hx => hb x (by simp [hx])) l₀ h
    · rw [List.flatten_cons, h0, List.cons_append] at h
      simp only [List.head?_cons, Option.some.injEq] at h
      exact ⟨s, h.symm⟩

theorem genLines_head (tasks : List Task) :
    ∀ l₀, (genLines tasks).head? = some l₀ → l₀.data.head? = some '#' := by
  intro l₀ h
  have hb : ∀ b ∈ KANBAN_COLUMNS.map (statusBlockLines tasks),
      b = [] ∨ ∃ s r, b = ("# " ++ s) :: r := by
    intro b hbm
    rcases List.mem_map.mp hbm with ⟨st, _, hbeq⟩
    rw [← hbeq, statusBlockLines]
    by_cases hct : completeOf tasks st = []
    · rw [if_pos hct]; exact Or.inl rfl
    · rw [if_neg hct]; exact Or.inr ⟨statusText st, _, rfl⟩
  obtain ⟨s, h0⟩ := flatten_head_hash _ hb l₀ h
  rw [h0, String.data_append]
  rfl

/-! ## The main parse-generate characterization -/

theorem parse_generate (tasks : List Task)
    (hwf : ∀ t ∈ tasks, wellFormedTask t = true) :
    parseImplementationPlan (generateImplementationPlanText tasks) =
      (canonTasks tasks).map stripSub := by
  have h₁ : generateImplementationPlanText tasks =
      ⟨trimChars (((genLines tasks).map (fun l => l.data ++ ['\n'])).flatten) ++ ['\n']⟩ := rfl
  rw [h₁, parse_generated (genLines tasks) (genLines_noNl tasks hwf) (genLines_head tasks)]
  rw [genLines, canonTasks]
  exact parse_statusBlocks tasks hwf KANBAN_COLUMNS 0 .Backlog "General"

/-! ## Lemmas: the canonical reordering is a permutation -/

theorem insertAsc_perm (x : String) (l : List String) :
    (insertAsc x l).Perm (x :: l) := by
  induction l with
  | nil => exact List.Perm.refl _
  | cons a as ih =>
    rw [insertAsc]
    by_cases hc : strToNat x ≤ strToNat a
    · rw [if_pos hc]
    · rw [if_neg hc]
      exact (List.Perm.cons a ih).trans (List.Perm.swap x a as)

theorem sortAsc_perm (l : List String) : (sortAsc l).Perm l := by
  induction l with
  | nil => exact List.Perm.refl _
  | cons a as ih =>
    rw [sortAsc]
    exact (insertAsc_perm a (sortAsc as)).trans (List.Perm.cons a ih)

theorem orderedKeys_perm (ks : List String) : (orderedKeys ks).Perm ks := by
  rw [orderedKeys]
  have h₁ := (sortAsc_perm (ks.filter isCanonicalIndex)).append_right
    (ks.filter (fun k => !isCanonicalIndex k))
  exact h₁.trans (List.filter_append_perm isCanonicalIndex ks)

theorem firstSeenAux_nodup : ∀ (l seen : List String),
    (firstSeenAux l seen).Nodup ∧ ∀ x ∈ firstSeenAux l seen, x ∉ seen := by
  intro l
  induction l with
  | nil => intro seen; exact ⟨List.nodup_nil, by simp [firstSeenAux]⟩
  | cons a as ih =>
    intro seen
    rw [firstSeenAux]
    by_cases hc : a ∈ seen
    · rw [if_pos hc]; exact ih seen
    · rw [if_neg hc]
      obtain ⟨hnd, hnotin⟩ := ih (a :: seen)
      constructor
      · apply List.Nodup.cons
        · intro hmem
          exact hnotin a hmem (by simp)
        · exact hnd
      · intro x hx
        rcases List.mem_cons.mp hx with h0 | h0
        · exact h0 ▸ hc
        · intro hxs
          exact hnotin x h0 (by simp [hxs])

theorem firstSeen_nodup (l : List String) : (firstSeen l).Nodup :=
  (firstSeenAux_nodup l []).1

theorem mem_firstSeenAux_of_mem (x : String) : ∀ (l seen : List String),
    x ∈ l → x ∈ seen ∨ x ∈ firstSeenAux l seen := by
  intro l
  induction l with
  | nil => intro seen h; simp at h
  | cons a as ih =>
    intro seen h
    rw [firstSeenAux]
    by_cases hc : a ∈ seen
    · rw [if_pos hc]
      rcases List.mem_cons.mp h with h0 | h0
      · exact Or.inl (h0 ▸ hc)
      · exact ih seen h0
    · rw [if_neg hc]
      rcases List.mem_cons.mp h with h0 | h0
      · exact Or.inr (h0 ▸ List.mem_cons_self a _)
      · rcases ih (a :: seen) h0 with h1 | h1
        · rcases List.mem_cons.mp h1 with h2 | h2
          · exact Or.inr (h2 ▸ List.mem_cons_self a _)
          · exact Or.inl h2
        · exact Or.inr (List.mem_cons_of_mem a h1)

theorem mem_firstSeen_of_mem (x : String) (l : List String) (h : x ∈ l) :
    x ∈ firstSeen l := by
  rcases mem_firstSeenAux_of_mem x l [] h with h0 | h0
  · simp at h0
  · exact h0

theorem phaseKeys_nodup (ct : List Task) : (phaseKeys ct).Nodup := by
  rw [phaseKeys]
  exact ((orderedKeys_perm _).nodup_iff).mpr (firstSeen_nodup _)

theorem mem_phaseKeys_of_mem (ct : List Task) (t : Task) (ht : t ∈ ct) :
    t.phase ∈ phaseKeys ct := by
  rw [phaseKeys]
  exact ((orderedKeys_perm _).mem_iff).mpr
    (mem_firstSeen_of_mem t.phase _ (List.mem_map_of_mem (fun x => x.phase) ht))

theorem flatten_filter_perm {α κ : Type} [DecidableEq κ] (f : α → κ) :
    ∀ (keys : List κ) (ts : List α), keys.Nodup → (∀ t ∈ ts, f t ∈ keys) →
    ((keys.map (fun k => ts.filter (fun t => f t = k))).flatten).Perm ts := by
  intro keys
  induction keys with
  | nil =>
    intro ts _ hcov
    have hts : ts = [] := by
      cases hts : ts with
      | nil => rfl
      | cons x xs => exact absurd (hcov x (by rw [hts]; simp)) (by simp)
    rw [hts]
    exact List.Perm.refl _
  | cons k ks ih =>
    intro ts hnd hcov
    have hknotin : k ∉ ks := (List.nodup_cons.mp hnd).1
    have hndks : ks.Nodup := (List.nodup_cons.mp hnd).2
    rw [List.map_cons, List.flatten_cons]
    have hmap : ks.map (fun j => ts.filter (fun t => f t = j)) =
        ks.map (fun j => (ts.filter (fun t => !decide (f t = k))).filter (fun t => f t = j)) := by
      apply List.map_congr_left
      intro j hj
      rw [List.filter_filter]
      apply List.filter_congr
      intro t _
      have hjk : ¬(j = k) := fun h0 => hknotin (h0 ▸ hj)
      by_cases hfj : f t = j
      · simp [hfj, hjk]
      · simp [hfj]
    rw [hmap]
    have hcov₂ : ∀ t ∈ ts.filter (fun t => !decide (f t = k)), f t ∈ ks := by
      intro t ht
      obtain ⟨htm, htp⟩ := List.mem_filter.mp ht
      rcases List.mem_cons.mp (hcov t htm) with h0 | h0
      · simp [h0] at htp
      · exact h0
    have hperm₂ := ih (ts.filter (fun t => !decide (f t = k))) hndks hcov₂
    have h₃ := hperm₂.append_left (ts.filter (fun t => f t = k))
    exact h₃.trans (List.filter_append_perm (fun t => decide (f t = k)) ts)

theorem completeOf_eq_of_wf (tasks : List Task) (st : TaskStatus)
    (hwf : ∀ t ∈ tasks, wellFormedTask t = true) :
    completeOf tasks st = tasks.filter (fun t => t.status = st) := by
  rw [completeOf]
  apply List.filter_eq_self.mpr
  intro t ht
  obtain ⟨_, ⟨_, _, _, _, hnp⟩, _, _⟩ := wf_fields t (hwf t (List.mem_filter.mp ht).1)
  simp [hnp]

theorem statusGroup_perm (tasks : List Task) (st : TaskStatus) :
    (statusGroup tasks st).Perm (completeOf tasks st) := by
  rw [statusGroup]
  exact flatten_filter_perm (fun t : Task => t.phase) (phaseKeys (completeOf tasks st))
    (completeOf tasks st) (phaseKeys_nodup _)
    (fun t ht => mem_phaseKeys_of_mem _ t ht)

theorem status_mem_kanban (st : TaskStatus) : st ∈ KANBAN_COLUMNS := by
  cases st <;> decide

theorem canonTasks_perm (tasks : List Task)
    (hwf : ∀ t ∈ tasks, wellFormedTask t = true) :
    (canonTasks tasks).Perm tasks := by
  rw [canonTasks]
  have h₁ : ∀ (sts : List TaskStatus),
      ((sts.map (statusGroup tasks)).flatten).Perm
        ((sts.map (fun st => tasks.filter (fun t => t.status = st))).flatten) := by
    intro sts
    induction sts with
    | nil => exact List.Perm.refl _
    | cons st sts ih =>
      rw [List.map_cons, List.flatten_cons, List.map_cons, List.flatten_cons]
      exact ((statusGroup_perm tasks st).trans
        (by rw [completeOf_eq_of_wf tasks st hwf])).append ih
  have h₂ := flatten_filter_perm (fun t : Task => t.status) KANBAN_COLUMNS tasks
    (by decide) (fun t _ => status_mem_kanban t.status)
  exact (h₁ KANBAN_COLUMNS).trans h₂

/-! ## Lemmas: the generator ignores the out-of-band field -/

theorem completeOf_map_stripSub (l : List Task) (st : TaskStatus) :
    completeOf (l.map stripSub) st = (completeOf l st).map stripSub := by
  rw [completeOf, completeOf, List.filter_map, List.filter_map]
  rfl

theorem phaseBlock_map_stripSub (ct : List Task) (ph : String) :
    phaseBlockLines (ct.map stripSub) ph = phaseBlockLines ct ph := by
  rw [phaseBlockLines, phaseBlockLines, List.filter_map]
  congr 2
  rw [List.map_map]
  have h₁ : (ct.filter ((fun t => decide (t.phase = ph)) ∘ stripSub)) =
      ct.filter (fun t => t.phase = ph) := by
    apply List.filter_congr
    intro t _
    rfl
  rw [h₁]
  apply List.map_congr_left
  intro t _
  rfl

theorem statusBlock_map_stripSub (l : List Task) (st : TaskStatus) :
    statusBlockLines (l.map stripSub) st = statusBlockLines l st := by
  rw [statusBlockLines, statusBlockLines, completeOf_map_stripSub]
  by_cases hct : completeOf l st = []
  · rw [hct]
    rfl
  · rw [if_neg (by simp [hct]), if_neg hct]
    congr 1
    have hkeys : phaseKeys ((completeOf l st).map stripSub) = phaseKeys (completeOf l st) := by
      rw [phaseKeys, phaseKeys, List.map_map]
      rfl
    rw [hkeys]
    apply congrArg
    apply List.map_congr_left
    intro ph _
    exact phaseBlock_map_stripSub (completeOf l st) ph

theorem generate_map_stripSub (l : List Task) :
    generateImplementationPlanText (l.map stripSub) = generateImplementationPlanText l := by
  rw [generateImplementationPlanText, generateImplementationPlanText, genLines, genLines]
  have h₁ : KANBAN_COLUMNS.map (statusBlockLines (l.map stripSub)) =
      KANBAN_COLUMNS.map (statusBlockLines l) :=
    List.map_congr_left (fun st _ => statusBlock_map_stripSub l st)
  rw [h₁]

/-! ## Lemmas: regenerating the canonical order reproduces the text -/

theorem filter_flatten_blocks {α κ : Type} [DecidableEq κ] (f : α → κ) (g : κ → List α)
    (hg : ∀ k, ∀ x ∈ g k, f x = k) :
    ∀ (keys : List κ) (k : κ), keys.Nodup →
    ((keys.map g).flatten).filter (fun x => f x = k) = if k ∈ keys then g k else [] := by
  intro keys
  induction keys with
  | nil => intro k _; simp
  | cons k₀ ks ih =>
    intro k hnd
    rw [List.map_cons, List.flatten_cons, List.filter_append,
      ih k (List.nodup_cons.mp hnd).2]
    by_cases hk : k = k₀
    · rw [if_neg (show k ∉ ks from hk ▸ (List.nodup_cons.mp hnd).1),
        if_pos (show k ∈ k₀ :: ks by simp [hk]), List.append_nil,
        List.filter_eq_self.mpr (by
          intro x hx
          simp [hg k₀ x hx, hk]), hk]
    · rw [List.filter_eq_nil_iff.mpr (by
          intro x hx
          simp only [decide_eq_true_eq]
          rw [hg k₀ x hx]
          exact fun h0 => hk h0.symm),
        List.nil_append]
      by_cases hmem : k ∈ ks
      · rw [if_pos hmem, if_pos (by simp [hmem])]
      · rw [if_neg hmem, if_neg (by simp [hmem, hk])]

theorem firstSeenAux_skip (seen : List String) :
    ∀ (t r : List String), (∀ x ∈ t, x ∈ seen) →
    firstSeenAux (t ++ r) seen = firstSeenAux r seen := by
  intro t
  induction t with
  | nil => intro r _; rfl
  | cons a as ih =>
    intro r hmem
    rw [List.cons_append, firstSeenAux, if_pos (hmem a (by simp))]
    exact ih r (fun x hx => hmem x (by simp [hx]))

theorem firstSeenAux_flatten_const :
    ∀ (keys : List String) (g : String → List String) (seen : List String), keys.Nodup →
    (∀ k ∈ keys, k ∉ seen ∧ g k ≠ [] ∧ ∀ x ∈ g k, x = k) →
    firstSeenAux ((keys.map g).flatten) seen = keys := by
  intro keys
  induction keys with
  | nil => intro g seen _ _; rfl
  | cons k ks ih =>
    intro g seen hnd hcond
    obtain ⟨hkseen, hgne, hgall⟩ := hcond k (by simp)
    rw [List.map_cons, List.flatten_cons]
    cases hgk : g k with
    | nil => exact absurd hgk hgne
    | cons x xs =>
      have hx : x = k := hgall x (by rw [hgk]; simp)
      rw [List.cons_append, firstSeenAux, if_neg (hx ▸ hkseen), hx]
      congr 1
      rw [firstSeenAux_skip (k :: seen) xs _ (by
        intro y hy
        have : y = k := hgall y (by rw [hgk]; simp [hy])
        simp [this])]
      apply ih g (k :: seen) (List.nodup_cons.mp hnd).2
      intro j hj
      obtain ⟨hjs, hgj⟩ := hcond j (by simp [hj])
      refine ⟨?_, hgj⟩
      intro hjk
      rcases List.mem_cons.mp hjk with h0 | h0
      · exact (List.nodup_cons.mp hnd).1 (h0 ▸ hj)
      · exact hjs h0

theorem firstSeen_flatten_const (keys : List String) (g : String → List String)
    (hnd : keys.Nodup) (hcond : ∀ k ∈ keys, g k ≠ [] ∧ ∀ x ∈ g k, x = k) :
    firstSeen ((keys.map g).flatten) = keys := by
  rw [firstSeen]
  apply firstSeenAux_flatten_const keys g [] hnd
  intro k hk
  exact ⟨by simp, (hcond k hk).1, (hcond k hk).2⟩

theorem insertAsc_pairwise (x : String) (l : List String)
    (h : List.Pairwise (fun a b => strToNat a ≤ strToNat b) l) :
    List.Pairwise (fun a b => strToNat a ≤ strToNat b) (insertAsc x l) := by
  induction l with
  | nil => simp [insertAsc]
  | cons a as ih =>
    rw [insertAsc]
    by_cases hc : strToNat x ≤ strToNat a
    · rw [if_pos hc]
      refine List.pairwise_cons.mpr ⟨?_, h⟩
      intro b hb
      rcases List.mem_cons.mp hb with h0 | h0
      · rw [h0]; exact hc
      · have := (List.pairwise_cons.mp h).1 b h0
        omega
    · rw [if_neg hc]
      refine List.pairwise_cons.mpr ⟨?_, ih (List.pairwise_cons.mp h).2⟩
      intro b hb
      rcases mem_insertAsc x b as hb with h0 | h0
      · rw [h0]; omega
      · exact (List.pairwise_cons.mp h).1 b h0

theorem sortAsc_pairwise (l : List String) :
    List.Pairwise (fun a b => strToNat a ≤ strToNat b) (sortAsc l) := by
  induction l with
  | nil => simp [sortAsc]
  | cons a as ih => exact insertAsc_pairwise a (sortAsc as) ih

theorem sortAsc_eq_self (l : List String)
    (h : List.Pairwise (fun a b => strToNat a ≤ strToNat b) l) : sortAsc l = l := by
  induction l with
  | nil => rfl
  | cons a as ih =>
    rw [sortAsc, ih (List.pairwise_cons.mp h).2]
    cases as with
    | nil => rfl
    | cons b bs =>
      rw [insertAsc, if_pos ((List.pairwise_cons.mp h).1 b (by simp))]

theorem orderedKeys_idem (ks : List String) :
    orderedKeys (orderedKeys ks) = orderedKeys ks := by
  have hA : ∀ x ∈ sortAsc (ks.filter isCanonicalIndex), isCanonicalIndex x = true :=
    fun x hx => (List.mem_filter.mp (mem_sortAsc x _ hx)).2
  have hB : ∀ x ∈ ks.filter (fun k => !isCanonicalIndex k), isCanonicalIndex x = false := by
    intro x hx
    have := (List.mem_filter.mp hx).2
    simpa using this
  show sortAsc ((sortAsc (ks.filter isCanonicalIndex) ++
      ks.filter (fun k => !isCanonicalIndex k)).filter isCanonicalIndex) ++
      (sortAsc (ks.filter isCanonicalIndex) ++
        ks.filter (fun k => !isCanonicalIndex k)).filter (fun k => !isCanonicalIndex k) =
      orderedKeys ks
  have hnil1 : (ks.filter (fun k => !isCanonicalIndex k)).filter isCanonicalIndex = [] :=
    List.filter_eq_nil_iff.mpr (fun x hx => by simp [hB x hx])
  have hnil2 : (sortAsc (ks.filter isCanonicalIndex)).filter (fun k => !isCanonicalIndex k) = [] :=
    List.filter_eq_nil_iff.mpr (fun x hx => by simp [hA x hx])
  have hself1 : (sortAsc (ks.filter isCanonicalIndex)).filter isCanonicalIndex =
      sortAsc (ks.filter isCanonicalIndex) :=
    List.filter_eq_self.mpr hA
  have hself2 : (ks.filter (fun k => !isCanonicalIndex k)).filter
      (fun k => !isCanonicalIndex k) = ks.filter (fun k => !isCanonicalIndex k) :=
    List.filter_eq_self.mpr (fun x hx => by simp [hB x hx])
  have h1 : (sortAsc (ks.filter isCanonicalIndex) ++
      ks.filter (fun k => !isCanonicalIndex k)).filter isCanonicalIndex =
      sortAsc (ks.filter isCanonicalIndex) := by
    rw [List.filter_append, hself1, hnil1, List.append_nil]
  have h2 : (sortAsc (ks.filter isCanonicalIndex) ++
      ks.filter (fun k => !isCanonicalIndex k)).filter (fun k => !isCanonicalIndex k) =
      ks.filter (fun k => !isCanonicalIndex k) := by
    rw [List.filter_append, hnil2, hself2, List.nil_append]
  rw [h1, h2, sortAsc_eq_self _ (sortAsc_pairwise _)]
  rfl

/-! ## Lemmas: the canonical list regenerates the same text -/

theorem mem_statusGroup (tasks : List Task) (st : TaskStatus) (t : Task)
    (h : t ∈ statusGroup tasks st) : t ∈ completeOf tasks st :=
  (statusGroup_perm tasks st).mem_iff.mp h

theorem mem_canonTasks (tasks : List Task) (t : Task) (h : t ∈ canonTasks tasks) :
    t ∈ tasks := by
  rw [canonTasks] at h
  rcases List.mem_flatten.mp h with ⟨b, hb, htb⟩
  rcases List.mem_map.mp hb with ⟨st, _, hbeq⟩
  exact (mem_completeOf tasks st t (mem_statusGroup tasks st t (hbeq ▸ htb))).1

theorem canon_filter_status (tasks : List Task) (st : TaskStatus) :
    (canonTasks tasks).filter (fun t => t.status = st) = statusGroup tasks st := by
  rw [canonTasks]
  rw [filter_flatten_blocks (fun t : Task => t.status) (statusGroup tasks)
    (fun k x hx => (mem_completeOf tasks k x (mem_statusGroup tasks k x hx)).2)
    KANBAN_COLUMNS st (by decide)]
  rw [if_pos (status_mem_kanban st)]

theorem completeOf_canon (tasks : List Task) (st : TaskStatus)
    (hwf : ∀ t ∈ tasks, wellFormedTask t = true) :
    completeOf (canonTasks tasks) st = statusGroup tasks st := by
  rw [completeOf, canon_filter_status]
  apply List.filter_eq_self.mpr
  intro t ht
  have htm : t ∈ tasks :=
    (mem_completeOf tasks st t (mem_statusGroup tasks st t ht)).1
  obtain ⟨_, ⟨_, _, _, _, hnp⟩, _, _⟩ := wf_fields t (hwf t htm)
  simp [hnp]

theorem statusGroup_filter_phase (tasks : List Task) (st : TaskStatus) (ph : String)
    (hph : ph ∈ phaseKeys (completeOf tasks st)) :
    (statusGroup tasks st).filter (fun t => t.phase = ph) =
      (completeOf tasks st).filter (fun t => t.phase = ph) := by
  rw [statusGroup]
  rw [filter_flatten_blocks (fun t : Task => t.phase)
    (fun k => (completeOf tasks st).filter (fun t => t.phase = k))
    (fun k x hx => by simpa using (List.mem_filter.mp hx).2)
    (phaseKeys (completeOf tasks st)) ph (phaseKeys_nodup _)]
  rw [if_pos hph]

theorem phaseKeys_statusGroup (tasks : List Task) (st : TaskStatus) :
    phaseKeys (statusGroup tasks st) = phaseKeys (completeOf tasks st) := by
  have hmap : (statusGroup tasks st).map (fun t => t.phase) =
      ((phaseKeys (completeOf tasks st)).map (fun ph =>
        ((completeOf tasks st).filter (fun t => t.phase = ph)).map (fun t => t.phase))).flatten := by
    rw [statusGroup, List.map_flatten, List.map_map]
    rfl
  have hfs : firstSeen ((statusGroup tasks st).map (fun t => t.phase)) =
      phaseKeys (completeOf tasks st) := by
    rw [hmap]
    apply firstSeen_flatten_const _ _ (phaseKeys_nodup _)
    intro k hk
    constructor
    · obtain ⟨t, ht, hph⟩ := mem_phaseKeys _ k hk
      have htf : t ∈ (completeOf tasks st).filter (fun x => x.phase = k) :=
        List.mem_filter.mpr ⟨ht, by simp [hph]⟩
      intro h0
      rw [List.map_eq_nil_iff] at h0
      rw [h0] at htf
      simp at htf
    · intro x hx
      rcases List.mem_map.mp hx with ⟨t, ht, hxeq⟩
      rw [← hxeq]
      simpa using (List.mem_filter.mp ht).2
  show orderedKeys (firstSeen ((statusGroup tasks st).map (fun t => t.phase))) = _
  rw [hfs]
  show orderedKeys (orderedKeys (firstSeen ((completeOf tasks st).map (fun t => t.phase)))) = _
  rw [orderedKeys_idem]
  rfl

theorem statusBlockLines_canon (tasks : List Task) (st : TaskStatus)
    (hwf : ∀ t ∈ tasks, wellFormedTask t = true) :
    statusBlockLines (canonTasks tasks) st = statusBlockLines tasks st := by
  rw [statusBlockLines, statusBlockLines, completeOf_canon tasks st hwf]
  by_cases hct : completeOf tasks st = []
  · have hsg : statusGroup tasks st = [] :=
      (hct ▸ statusGroup_perm tasks st).eq_nil
    rw [if_pos hsg, if_pos hct]
  · have hsg : ¬(statusGroup tasks st = []) := by
      intro h0
      exact hct ((h0 ▸ statusGroup_perm tasks st).symm.eq_nil)
    rw [if_neg hsg, if_neg hct]
    congr 1
    rw [phaseKeys_statusGroup]
    apply congrArg
    apply List.map_congr_left
    intro ph hph
    rw [phaseBlockLines, phaseBlockLines, statusGroup_filter_phase tasks st ph hph]

theorem generate_canon (tasks : List Task)
    (hwf : ∀ t ∈ tasks, wellFormedTask t = true) :
    generateImplementationPlanText (canonTasks tasks) =
      generateImplementationPlanText tasks := by
  rw [generateImplementationPlanText, generateImplementationPlanText, genLines, genLines]
  have h₁ : KANBAN_COLUMNS.map (statusBlockLines (canonTasks tasks)) =
      KANBAN_COLUMNS.map (statusBlockLines tasks) :=
    List.map_congr_left (fun st _ => statusBlockLines_canon tasks st hwf)
  rw [h₁]

theorem mergeTasks_map_stripSub (F P : List Task) :
    (mergeTasks F P).map stripSub = F.map stripSub := by
  rw [mergeTasks, List.map_map]
  apply List.map_congr_left
  intro t _
  rfl

/-! ## Lemmas: placeholder filtering, permutation invariance, parsed-field shape -/

theorem completeOf_filter_placeholder (tasks : List Task) (st : TaskStatus) :
    completeOf (tasks.filter (fun t => !strStarts "partial-" t.id)) st =
      completeOf tasks st := by
  rw [completeOf, completeOf, List.filter_filter, List.filter_filter, List.filter_filter]
  apply List.filter_congr
  intro t _
  cases hp : strStarts "partial-" t.id <;> cases hs : decide (t.status = st) <;> simp [hp, hs]

theorem generate_filter_placeholder (tasks : List Task) :
    generateImplementationPlanText tasks =
      generateImplementationPlanText (tasks.filter (fun t => !strStarts "partial-" t.id)) := by
  rw [generateImplementationPlanText, generateImplementationPlanText, genLines, genLines]
  have h₁ : KANBAN_COLUMNS.map
        (statusBlockLines (tasks.filter (fun t => !strStarts "partial-" t.id))) =
      KANBAN_COLUMNS.map (statusBlockLines tasks) := by
    apply List.map_congr_left
    intro st _
    rw [statusBlockLines, statusBlockLines, completeOf_filter_placeholder]
  rw [h₁]

theorem completeOf_perm (tasks tasks' : List Task) (st : TaskStatus)
    (h : tasks.Perm tasks') : (completeOf tasks st).Perm (completeOf tasks' st) := by
  rw [completeOf, completeOf]
  exact (h.filter _).filter _

theorem emittedStatuses_perm (tasks tasks' : List Task) (h : tasks.Perm tasks') :
    emittedStatuses tasks = emittedStatuses tasks' := by
  rw [emittedStatuses, emittedStatuses]
  apply List.filter_congr
  intro st _
  have hp := completeOf_perm tasks tasks' st h
  have hiff : ((completeOf tasks st).isEmpty = true) ↔
      ((completeOf tasks' st).isEmpty = true) := by
    rw [List.isEmpty_iff, List.isEmpty_iff]
    constructor
    · intro h0
      rw [h0] at hp
      exact hp.nil_eq.symm
    · intro h0
      rw [h0] at hp
      exact hp.eq_nil
  cases hA : (completeOf tasks st).isEmpty <;> cases hB : (completeOf tasks' st).isEmpty <;>
    simp_all

theorem strStarts_dash_shape (t : String) (h : strStarts "- " t = true) :
    ∃ r, t.data = '-' :: ' ' :: r := by
  rw [strStarts] at h
  have hpre : ("- " : String).data <+: t.data := List.isPrefixOf_iff_prefix.mp h
  obtain ⟨u, hu⟩ := hpre
  exact ⟨u, by rw [← hu]; rfl⟩

theorem dash_line_not_status (t : String) (h : strStarts "- " t = true) :
    strStarts "# " t = false ∧ strStarts "## " t = false := by
  obtain ⟨r, hr⟩ := strStarts_dash_shape t h
  constructor
  · rw [strStarts, hr]
    simp [List.isPrefixOf]
  · rw [strStarts, hr]
    simp [List.isPrefixOf]

theorem natDigitsAux_last (fuel n : Nat) (hf : 0 < fuel) :
    ∃ d, d < 10 ∧ (natDigitsAux fuel n).getLast? = some (Nat.digitChar d) := by
  cases fuel with
  | zero => omega
  | succ f =>
    rw [natDigitsAux]
    by_cases hn : n < 10
    · rw [if_pos hn]
      exact ⟨n, hn, rfl⟩
    · rw [if_neg hn]
      exact ⟨n % 10, Nat.mod_lt n (by omega), List.getLast?_concat _⟩

theorem digitChar_not_ws (d : Nat) (hd : d < 10) :
    (Nat.digitChar d).isWhitespace = false := by
  interval_cases d <;> decide

theorem natDigitsAux_ne_nil (fuel n : Nat) (hf : 0 < fuel) :
    natDigitsAux fuel n ≠ [] := by
  obtain ⟨d, _, hlast⟩ := natDigitsAux_last fuel n hf
  intro h0
  rw [h0] at hlast
  simp at hlast

theorem jsTrim_placeholder (i : Nat) :
    jsTrim ("partial-" ++ natRepr i) = "partial-" ++ natRepr i := by
  rw [jsTrim]
  have hdat : ("partial-" ++ natRepr i).data = "partial-".data ++ natDigitsAux (i + 1) i := by
    rw [String.data_append]
    rfl
  have heq : trimChars ("partial-" ++ natRepr i).data = ("partial-" ++ natRepr i).data := by
    apply trimChars_eq_self
    · intro c hc
      rw [hdat] at hc
      simp only [List.cons_append, List.head?_cons, Option.some.injEq] at hc
      rw [← hc]
      decide
    · intro c hc
      rw [hdat, List.getLast?_append_of_ne_nil _ (natDigitsAux_ne_nil _ i (by omega))] at hc
      obtain ⟨d, hd, hlast⟩ := natDigitsAux_last (i + 1) i (by omega)
      rw [hlast] at hc
      simp only [Option.some.injEq] at hc
      rw [← hc]
      exact digitChar_not_ws d hd
  rw [heq]

theorem jsTrim_getD_part (parts : List String) (k : Nat)
    (hparts : ∀ x ∈ parts, jsTrim x = x) :
    jsTrim (parts.getD k "") = parts.getD k "" := by
  rw [List.getD_eq_getElem?_getD]
  cases hk : parts[k]? with
  | none => rfl
  | some x => exact hparts x (List.getElem?_mem hk)

theorem mkParsedTask_trimmed (t : String) (i : Nat) (st : TaskStatus) (ph : String) :
    jsTrim (mkParsedTask t i st ph).subPhase = (mkParsedTask t i st ph).subPhase ∧
    jsTrim (mkParsedTask t i st ph).id = (mkParsedTask t i st ph).id ∧
    jsTrim (mkParsedTask t i st ph).description = (mkParsedTask t i st ph).description := by
  have hparts : ∀ x ∈ (splitCh ',' (strDrop 2 t).data).map
      (fun p => ((⟨trimChars p⟩ : String))), jsTrim x = x := by
    intro x hx
    rcases List.mem_map.mp hx with ⟨p, _, hpeq⟩
    rw [← hpeq, jsTrim]
    show (⟨trimChars (trimChars p)⟩ : String) = _
    rw [trimChars_idem]
  refine ⟨jsTrim_getD_part _ 0 hparts, ?_, ?_⟩
  · show jsTrim (if ((splitCh ',' (strDrop 2 t).data).map
        (fun p => ((⟨trimChars p⟩ : String)))).getD 1 "" = ""
      then "partial-" ++ natRepr i
      else ((splitCh ',' (strDrop 2 t).data).map
        (fun p => ((⟨trimChars p⟩ : String)))).getD 1 "") =
      (if ((splitCh ',' (strDrop 2 t).data).map
        (fun p => ((⟨trimChars p⟩ : String)))).getD 1 "" = ""
      then "partial-" ++ natRepr i
      else ((splitCh ',' (strDrop 2 t).data).map
        (fun p => ((⟨trimChars p⟩ : String)))).getD 1 "")
    by_cases hid : ((splitCh ',' (strDrop 2 t).data).map
        (fun p => ((⟨trimChars p⟩ : String)))).getD 1 "" = ""
    · rw [if_pos hid, jsTrim_placeholder]
    · rw [if_neg hid]
      exact jsTrim_getD_part _ 1 hparts
  · show jsTrim (if ((splitCh ',' (strDrop 2 t).data).map
        (fun p => ((⟨trimChars p⟩ : String)))).getD 2 "" = ""
      then "..."
      else ((splitCh ',' (strDrop 2 t).data).map
        (fun p => ((⟨trimChars p⟩ : String)))).getD 2 "") =
      (if ((splitCh ',' (strDrop 2 t).data).map
        (fun p => ((⟨trimChars p⟩ : String)))).getD 2 "" = ""
      then "..."
      else ((splitCh ',' (strDrop 2 t).data).map
        (fun p => ((⟨trimChars p⟩ : String)))).getD 2 "")
    by_cases hdesc : ((splitCh ',' (strDrop 2 t).data).map
        (fun p => ((⟨trimChars p⟩ : String)))).getD 2 "" = ""
    · rw [if_pos hdesc]
      decide
    · rw [if_neg hdesc]
      exact jsTrim_getD_part _ 2 hparts

theorem parseLines_fields_trimmed : ∀ (ls : List String) (i : Nat) (st : TaskStatus)
    (ph : String) (t : Task), t ∈ parseLines ls i st ph →
    jsTrim t.subPhase = t.subPhase ∧ jsTrim t.id = t.id ∧
      jsTrim t.description = t.description := by
  intro ls
  induction ls with
  | nil => intro i st ph t h; simp [parseLines] at h
  | cons l rest ih =>
    intro i st ph t h
    rw [parseLines_cons] at h
    rcases List.mem_append.mp h with h0 | h0
    · rw [taskOut] at h0
      by_cases h1 : strStarts "# " (jsTrim l) = true
      · rw [if_pos h1] at h0; simp at h0
      · rw [if_neg h1] at h0
        by_cases h2 : strStarts "## " (jsTrim l) = true
        · rw [if_pos h2] at h0; simp at h0
        · rw [if_neg h2] at h0
          by_cases h3 : strStarts "- " (jsTrim l) = true
          · rw [if_pos h3] at h0
            simp only [List.mem_singleton] at h0
            rw [h0]
            exact mkParsedTask_trimmed (jsTrim l) i st ph
          · rw [if_neg h3] at h0; simp at h0
    · exact ih (i + 1) _ _ t h0

/-! ## Claim theorems -/

/-- Claim C1, counterexample: the claim quantifies over every task list with no
placeholder ids, but a description containing a comma corrupts the round trip:
`parse(generate(T))` has the same length as `T` yet its only record's
description is `"x"`, not `"x, y"`. -/
theorem c1_counterexample :
    (parseImplementationPlan (generateImplementationPlanText
      [{ id := "T1", description := "x, y", status := .Backlog, phase := "P",
         subPhase := "a", priority := .High, subProjectId := none }])).length = 1 ∧
    (parseImplementationPlan (generateImplementationPlanText
      [{ id := "T1", description := "x, y", status := .Backlog, phase := "P",
         subPhase := "a", priority := .High, subProjectId := none }])).map
        (fun t => t.description) = ["x"] ∧
    ¬(("x" : String) = "x, y") :=
  ⟨by decide, by decide, by decide⟩

/-- Claim C1 (amended): for every task list whose tasks are well formed (no
placeholder id; comma-free subPhase, id and description; newline-free and
whitespace-trimmed fields; nonempty id, description and phase),
`parse(generate(T))` has the same length as `T` and its records' text fields
(id, description, status, phase, subPhase, priority) are a permutation of
those of `T`. -/
theorem c1_roundtrip_correspondence (T : List Task)
    (hwf : ∀ t ∈ T, wellFormedTask t = true) :
    (parseImplementationPlan (generateImplementationPlanText T)).length = T.length ∧
    ((parseImplementationPlan (generateImplementationPlanText T)).map projTask).Perm
      (T.map projTask) := by
  have h := parse_generate T hwf
  constructor
  · rw [h, List.length_map]
    exact (canonTasks_perm T hwf).length_eq
  · rw [h, List.map_map]
    have hcomp : (projTask ∘ stripSub) = projTask := funext fun t => rfl
    rw [hcomp]
    exact (canonTasks_perm T hwf).map projTask

/-- Witness for the amended claim C1 at a concrete two-task list given out of
canonical status order. -/
theorem c1_roundtrip_witness :
    (∀ t ∈ [({ id := "W1", description := "d", status := .Done, phase := "P",
               subPhase := "s", priority := .High, subProjectId := none } : Task),
            { id := "W2", description := "e", status := .Backlog, phase := "Q",
              subPhase := "", priority := .Low, subProjectId := some "sp" }],
        wellFormedTask t = true) ∧
    ((parseImplementationPlan (generateImplementationPlanText
      [{ id := "W1", description := "d", status := .Done, phase := "P",
         subPhase := "s", priority := .High, subProjectId := none },
       { id := "W2", description := "e", status := .Backlog, phase := "Q",
         subPhase := "", priority := .Low, subProjectId := some "sp" }])).length = 2 ∧
      ((parseImplementationPlan (generateImplementationPlanText
        [{ id := "W1", description := "d", status := .Done, phase := "P",
           subPhase := "s", priority := .High, subProjectId := none },
         { id := "W2", description := "e", status := .Backlog, phase := "Q",
           subPhase := "", priority := .Low, subProjectId := some "sp" }])).map projTask).Perm
        ([{ id := "W1", description := "d", status := .Done, phase := "P",
            subPhase := "s", priority := .High, subProjectId := none },
          { id := "W2", description := "e", status := .Backlog, phase := "Q",
            subPhase := "", priority := .Low, subProjectId := some "sp" }].map projTask)) :=
  ⟨by decide, c1_roundtrip_correspondence _ (by decide)⟩

/-- Claim C2, counterexample: with a comma inside a description (still no
placeholder id), regeneration is not idempotent: both
`generate(merge(parse(generate(T)), T))` and `generate(parse(generate(T)))`
differ from `generate(T)`. -/
theorem c2_counterexample :
    ¬(generateImplementationPlanText (mergeTasks
        (parseImplementationPlan (generateImplementationPlanText
          [{ id := "T1", description := "p, q", status := .Backlog, phase := "P",
             subPhase := "a", priority := .High, subProjectId := none }]))
        [{ id := "T1", description := "p, q", status := .Backlog, phase := "P",
           subPhase := "a", priority := .High, subProjectId := none }]) =
      generateImplementationPlanText
        [{ id := "T1", description := "p, q", status := .Backlog, phase := "P",
           subPhase := "a", priority := .High, subProjectId := none }]) ∧
    ¬(generateImplementationPlanText (parseImplementationPlan
        (generateImplementationPlanText
          [{ id := "T1", description := "p, q", status := .Backlog, phase := "P",
             subPhase := "a", priority := .High, subProjectId := none }])) =
      generateImplementationPlanText
        [{ id := "T1", description := "p, q", status := .Backlog, phase := "P",
           subPhase := "a", priority := .High, subProjectId := none }]) :=
  ⟨by decide, by decide⟩

/-- Claim C2 (amended): for every task list of well-formed tasks, regeneration
is idempotent: `generate(merge(parse(generate(T)), T)) = generate(T)` and
`generate(parse(generate(T))) = generate(T)`. -/
theorem c2_idempotent_regeneration (T : List Task)
    (hwf : ∀ t ∈ T, wellFormedTask t = true) :
    generateImplementationPlanText (mergeTasks
        (parseImplementationPlan (generateImplementationPlanText T)) T) =
      generateImplementationPlanText T ∧
    generateImplementationPlanText
        (parseImplementationPlan (generateImplementationPlanText T)) =
      generateImplementationPlanText T := by
  have hmain := parse_generate T hwf
  have hcanon : generateImplementationPlanText ((canonTasks T).map stripSub) =
      generateImplementationPlanText T := by
    rw [generate_map_stripSub, generate_canon T hwf]
  constructor
  · rw [hmain]
    calc generateImplementationPlanText (mergeTasks ((canonTasks T).map stripSub) T)
        = generateImplementationPlanText
            ((mergeTasks ((canonTasks T).map stripSub) T).map stripSub) :=
          (generate_map_stripSub _).symm
      _ = generateImplementationPlanText (((canonTasks T).map stripSub).map stripSub) := by
          rw [mergeTasks_map_stripSub]
      _ = generateImplementationPlanText ((canonTasks T).map stripSub) :=
          generate_map_stripSub _
      _ = generateImplementationPlanText T := hcanon
  · rw [hmain, hcanon]

/-- Witness for the amended claim C2 at a concrete two-task list. -/
theorem c2_idempotent_witness :
    (∀ t ∈ [({ id := "V1", description := "d", status := .Future, phase := "R",
               subPhase := "s", priority := .Medium, subProjectId := none } : Task),
            { id := "V2", description := "e", status := .ToDo, phase := "General",
              subPhase := "u", priority := .None, subProjectId := none }],
        wellFormedTask t = true) ∧
    (generateImplementationPlanText (mergeTasks
        (parseImplementationPlan (generateImplementationPlanText
          [{ id := "V1", description := "d", status := .Future, phase := "R",
             subPhase := "s", priority := .Medium, subProjectId := none },
           { id := "V2", description := "e", status := .ToDo, phase := "General",
             subPhase := "u", priority := .None, subProjectId := none }]))
        [{ id := "V1", description := "d", status := .Future, phase := "R",
           subPhase := "s", priority := .Medium, subProjectId := none },
         { id := "V2", description := "e", status := .ToDo, phase := "General",
           subPhase := "u", priority := .None, subProjectId := none }]) =
      generateImplementationPlanText
        [{ id := "V1", description := "d", status := .Future, phase := "R",
           subPhase := "s", priority := .Medium, subProjectId := none },
         { id := "V2", description := "e", status := .ToDo, phase := "General",
           subPhase := "u", priority := .None, subProjectId := none }] ∧
      generateImplementationPlanText (parseImplementationPlan
        (generateImplementationPlanText
          [{ id := "V1", description := "d", status := .Future, phase := "R",
             subPhase := "s", priority := .Medium, subProjectId := none },
           { id := "V2", description := "e", status := .ToDo, phase := "General",
             subPhase := "u", priority := .None, subProjectId := none }])) =
      generateImplementationPlanText
        [{ id := "V1", description := "d", status := .Future, phase := "R",
           subPhase := "s", priority := .Medium, subProjectId := none },
         { id := "V2", description := "e", status := .ToDo, phase := "General",
           subPhase := "u", priority := .None, subProjectId := none }]) :=
  ⟨by decide, c2_idempotent_regeneration _ (by decide)⟩

/-- Claim C3: merge keeps the length and order of the freshly parsed list,
copies every text field from the fresh task, carries the subProjectId of a
matching previous task (the first match by id) and leaves it unset otherwise;
in particular the spec's concrete example. -/
theorem c3_merge_spec (F P : List Task) :
    (mergeTasks F P).length = F.length ∧
    (∀ (i : Nat) (f : Task), F[i]? = some f → ∃ m, (mergeTasks F P)[i]? = some m ∧
      m.id = f.id ∧ m.description = f.description ∧ m.status = f.status ∧
      m.phase = f.phase ∧ m.subPhase = f.subPhase ∧ m.priority = f.priority ∧
      ((∃ p ∈ P, p.id = f.id ∧ m.subProjectId = p.subProjectId) ∨
        ((∀ p ∈ P, ¬(p.id = f.id)) ∧ m.subProjectId = none))) ∧
    mergeTasks
      [{ id := "T-1", description := "d", status := .Backlog, phase := "G",
         subPhase := "s", priority := .None, subProjectId := none }]
      [{ id := "T-1", description := "d2", status := .Done, phase := "H",
         subPhase := "u", priority := .Low, subProjectId := some "proj-x" }] =
      [{ id := "T-1", description := "d", status := .Backlog, phase := "G",
         subPhase := "s", priority := .None, subProjectId := some "proj-x" }] := by
  refine ⟨by rw [mergeTasks, List.length_map], ?_, by decide⟩
  intro i f hf
  rw [mergeTasks, List.getElem?_map, hf]
  refine ⟨_, rfl, rfl, rfl, rfl, rfl, rfl, rfl, ?_⟩
  cases hfind : P.find? (fun t => t.id == f.id) with
  | none =>
    right
    refine ⟨fun p hp => by simpa using List.find?_eq_none.mp hfind p hp, ?_⟩
    show (P.find? (fun t => t.id == f.id)).bind (fun t => t.subProjectId) = none
    rw [hfind]
    rfl
  | some p =>
    left
    refine ⟨p, List.mem_of_find?_eq_some hfind, by simpa using List.find?_some hfind, ?_⟩
    show (P.find? (fun t => t.id == f.id)).bind (fun t => t.subProjectId) = p.subProjectId
    rw [hfind]
    rfl

/-- Witness for claim C3 at the spec's concrete example. -/
theorem c3_merge_witness :
    (mergeTasks
      [{ id := "T-1", description := "d", status := .Backlog, phase := "G",
         subPhase := "s", priority := .None, subProjectId := none }]
      [{ id := "T-1", description := "d2", status := .Done, phase := "H",
         subPhase := "u", priority := .Low, subProjectId := some "proj-x" }]).length = 1 :=
  (c3_merge_spec _ _).1

/-- Claim C4, counterexample: status matching is case-sensitive, so parsing
`"# in progress"` or `"# TO-DO"` yields the default status Backlog, not the
corresponding status as the claim requires. -/
theorem c4_counterexample :
    (parseImplementationPlan "# in progress\n- s, T1, d, High").map
      (fun t => t.status) = [TaskStatus.Backlog] ∧
    (parseImplementationPlan "# TO-DO\n- s, T2, d, High").map
      (fun t => t.status) = [TaskStatus.Backlog] ∧
    ¬(TaskStatus.Backlog = TaskStatus.InProgress) ∧
    ¬(TaskStatus.Backlog = TaskStatus.ToDo) :=
  ⟨by decide, by decide, by decide, by decide⟩

/-- Claim C4 (amended): the remainder of a status heading is matched against
the six enum key names after deleting only the first hyphen and the first
space, case-sensitively; every canonical status value maps to its status, and
any unmatched remainder (including case variants) yields Backlog. -/
theorem c4_status_matching :
    (∀ st : TaskStatus, getStatusFromString (statusText st) = st) ∧
    getStatusFromString "in progress" = TaskStatus.Backlog ∧
    getStatusFromString "TO-DO" = TaskStatus.Backlog ∧
    getStatusFromString "nonsense" = TaskStatus.Backlog ∧
    (∀ st : TaskStatus,
      (parseImplementationPlan ("# " ++ statusText st ++ "\n- s, X1, d, High")).map
        (fun t => t.status) = [st]) :=
  ⟨fun st => by cases st <;> rfl, by decide, by decide, by decide,
    fun st => by cases st <;> decide⟩

/-- Claim C5, counterexample: with the numeric-looking phase labels "2" and
"1" first encountered in the order ["2", "1"], the generator emits the "1"
block before the "2" block (JavaScript enumerates integer-like object keys in
ascending numeric order first), so first-encountered order is violated. -/
theorem c5_counterexample :
    generateImplementationPlanText
      [{ id := "A1", description := "d", status := .Backlog, phase := "2",
         subPhase := "s", priority := .High, subProjectId := none },
       { id := "B1", description := "d", status := .Backlog, phase := "1",
         subPhase := "s", priority := .High, subProjectId := none }] =
      "# Backlog\n## 1\n- s, B1, d, High\n\n## 2\n- s, A1, d, High\n" ∧
    ¬(generateImplementationPlanText
      [{ id := "A1", description := "d", status := .Backlog, phase := "2",
         subPhase := "s", priority := .High, subProjectId := none },
       { id := "B1", description := "d", status := .Backlog, phase := "1",
         subPhase := "s", priority := .High, subProjectId := none }] =
      "# Backlog\n## 2\n- s, A1, d, High\n\n## 1\n- s, B1, d, High\n") :=
  ⟨by decide, by decide⟩

/-- Claim C5 (amended): within a status the phase blocks follow first-seen
(insertion) order whenever no phase label is a canonical array-index string
(all-digit, no leading zero, below 2^32 - 1); such numeric labels are instead
emitted first in ascending numeric order.  The phase-key enumeration then
coincides with first-seen order, and phases first seen as [Beta, Alpha]
generate the Beta block before the Alpha block. -/
theorem c5_phase_insertion_order (ct : List Task)
    (hct : ∀ t ∈ ct, isCanonicalIndex t.phase = false) :
    phaseKeys ct = firstSeen (ct.map (fun t => t.phase)) ∧
    generateImplementationPlanText
      [{ id := "B1", description := "d", status := .ToDo, phase := "Beta",
         subPhase := "s", priority := .Low, subProjectId := none },
       { id := "A1", description := "d", status := .ToDo, phase := "Alpha",
         subPhase := "s", priority := .Low, subProjectId := none }] =
      "# To-Do\n## Beta\n- s, B1, d, Low\n\n## Alpha\n- s, A1, d, Low\n" := by
  constructor
  · rw [phaseKeys, orderedKeys]
    have hall : ∀ k ∈ firstSeen (ct.map fun t => t.phase),
        isCanonicalIndex k = false := by
      intro k hk
      rcases List.mem_map.mp (mem_firstSeen k _ hk) with ⟨t, ht, hkeq⟩
      exact hkeq ▸ hct t ht
    rw [List.filter_eq_nil_iff.mpr (fun x hx => by simp [hall x hx]),
      List.filter_eq_self.mpr (fun x hx => by simp [hall x hx])]
    rfl
  · decide

/-- Witness for the amended claim C5 at a concrete list with non-numeric
phase labels. -/
theorem c5_phase_order_witness :
    (∀ t ∈ [({ id := "B1", description := "d", status := .ToDo, phase := "Beta",
               subPhase := "s", priority := .Low, subProjectId := none } : Task),
            { id := "A1", description := "d", status := .ToDo, phase := "Alpha",
              subPhase := "s", priority := .Low, subProjectId := none }],
        isCanonicalIndex t.phase = false) ∧
    phaseKeys
      [({ id := "B1", description := "d", status := .ToDo, phase := "Beta",
          subPhase := "s", priority := .Low, subProjectId := none } : Task),
       { id := "A1", description := "d", status := .ToDo, phase := "Alpha",
         subPhase := "s", priority := .Low, subProjectId := none }] =
      firstSeen
        ([({ id := "B1", description := "d", status := .ToDo, phase := "Beta",
             subPhase := "s", priority := .Low, subProjectId := none } : Task),
          { id := "A1", description := "d", status := .ToDo, phase := "Alpha",
            subPhase := "s", priority := .Low, subProjectId := none }].map
          (fun t => t.phase)) :=
  ⟨by decide, (c5_phase_insertion_order _ (by decide)).1⟩

/-- Claim C6: the generated text is exactly the text generated from the list
with every placeholder-id task removed; a list with one placeholder task and
one real task generates only the real task's line, and an all-placeholder
list generates no status heading at all. -/
theorem c6_placeholder_exclusion (tasks : List Task) :
    generateImplementationPlanText tasks =
      generateImplementationPlanText
        (tasks.filter (fun t => !strStarts "partial-" t.id)) ∧
    generateImplementationPlanText
      [{ id := "partial-5", description := "d", status := .Backlog,
         phase := "General", subPhase := "a", priority := .High, subProjectId := none },
       { id := "T1", description := "d", status := .Backlog, phase := "General",
         subPhase := "a", priority := .High, subProjectId := none }] =
      "# Backlog\n## General\n- a, T1, d, High\n" ∧
    generateImplementationPlanText
      [{ id := "partial-5", description := "d", status := .Backlog,
         phase := "General", subPhase := "a", priority := .High,
         subProjectId := none }] = "\n" :=
  ⟨generate_filter_placeholder tasks, by decide, by decide⟩

/-- Claim C7: a status heading line always resets the current phase to
"General" for subsequent lines, and the spec's example parses with Y-1 in
phase "General", not "Alpha". -/
theorem c7_status_resets_phase (line : String) (rest : List String) (i : Nat)
    (st : TaskStatus) (ph : String) (h : strStarts "# " (jsTrim line) = true) :
    parseLines (line :: rest) i st ph =
      parseLines rest (i + 1)
        (getStatusFromString (jsTrim (strDrop 2 (jsTrim line)))) "General" ∧
    parseImplementationPlan
        "# To-Do\n## Alpha\n- X, X-1, desc, High\n# In Progress\n- Y, Y-1, desc2, Low" =
      [{ id := "X-1", description := "desc", status := .ToDo, phase := "Alpha",
         subPhase := "X", priority := .High, subProjectId := none },
       { id := "Y-1", description := "desc2", status := .InProgress,
         phase := "General", subPhase := "Y", priority := .Low,
         subProjectId := none }] := by
  constructor
  · rw [parseLines]
    simp [h]
  · decide

/-- Witness for claim C7 at a status heading immediately following a phase. -/
theorem c7_status_resets_witness :
    strStarts "# " (jsTrim "# In Progress") = true ∧
    parseLines ["# In Progress", "- a, T9, d, Low"] 0 .Backlog "Alpha" =
      parseLines ["- a, T9, d, Low"] 1
        (getStatusFromString (jsTrim (strDrop 2 (jsTrim "# In Progress")))) "General" :=
  ⟨by decide,
    (c7_status_resets_phase "# In Progress" ["- a, T9, d, Low"] 0 .Backlog "Alpha"
      (by decide)).1⟩

/-- Claim C8: the generator emits status headings in the fixed canonical
order: the emitted-status list is always a sublist of KANBAN_COLUMNS, it is
invariant under permuting the input, and a list with all six statuses in
reverse order generates headings in canonical order. -/
theorem c8_canonical_status_order (tasks tasks' : List Task)
    (hperm : tasks.Perm tasks') :
    emittedStatuses tasks = emittedStatuses tasks' ∧
    (emittedStatuses tasks).Sublist KANBAN_COLUMNS ∧
    headingLines (generateImplementationPlanText
      [{ id := "T6", description := "d", status := .Future, phase := "General",
         subPhase := "s", priority := .High, subProjectId := none },
       { id := "T5", description := "d", status := .Done, phase := "General",
         subPhase := "s", priority := .High, subProjectId := none },
       { id := "T4", description := "d", status := .Review, phase := "General",
         subPhase := "s", priority := .High, subProjectId := none },
       { id := "T3", description := "d", status := .InProgress, phase := "General",
         subPhase := "s", priority := .High, subProjectId := none },
       { id := "T2", description := "d", status := .ToDo, phase := "General",
         subPhase := "s", priority := .High, subProjectId := none },
       { id := "T1", description := "d", status := .Backlog, phase := "General",
         subPhase := "s", priority := .High, subProjectId := none }]) =
      ["# Backlog", "# To-Do", "# In Progress", "# Review", "# Done", "# Future"] ∧
    generateImplementationPlanText
      [{ id := "T6", description := "d", status := .Future, phase := "General",
         subPhase := "s", priority := .High, subProjectId := none },
       { id := "T5", description := "d", status := .Done, phase := "General",
         subPhase := "s", priority := .High, subProjectId := none },
       { id := "T4", description := "d", status := .Review, phase := "General",
         subPhase := "s", priority := .High, subProjectId := none },
       { id := "T3", description := "d", status := .InProgress, phase := "General",
         subPhase := "s", priority := .High, subProjectId := none },
       { id := "T2", description := "d", status := .ToDo, phase := "General",
         subPhase := "s", priority := .High, subProjectId := none },
       { id := "T1", description := "d", status := .Backlog, phase := "General",
         subPhase := "s", priority := .High, subProjectId := none }] =
      "# Backlog\n## General\n- s, T1, d, High\n\n# To-Do\n## General\n- s, T2, d, High\n\n# In Progress\n## General\n- s, T3, d, High\n\n# Review\n## General\n- s, T4, d, High\n\n# Done\n## General\n- s, T5, d, High\n\n# Future\n## General\n- s, T6, d, High\n" :=
  ⟨emittedStatuses_perm tasks tasks' hperm, List.filter_sublist _, by decide, by decide⟩

/-- Witness for claim C8: the emitted statuses of a two-element list and its
reversal coincide. -/
theorem c8_canonical_order_witness :
    ([({ id := "T1", description := "d", status := .Done, phase := "G",
         subPhase := "s", priority := .High, subProjectId := none } : Task),
      { id := "T2", description := "d", status := .Backlog, phase := "G",
        subPhase := "s", priority := .High, subProjectId := none }].Perm
     [({ id := "T2", description := "d", status := .Backlog, phase := "G",
         subPhase := "s", priority := .High, subProjectId := none } : Task),
      { id := "T1", description := "d", status := .Done, phase := "G",
        subPhase := "s", priority := .High, subProjectId := none }]) ∧
    emittedStatuses
      [({ id := "T1", description := "d", status := .Done, phase := "G",
          subPhase := "s", priority := .High, subProjectId := none } : Task),
       { id := "T2", description := "d", status := .Backlog, phase := "G",
         subPhase := "s", priority := .High, subProjectId := none }] =
      emittedStatuses
      [({ id := "T2", description := "d", status := .Backlog, phase := "G",
          subPhase := "s", priority := .High, subProjectId := none } : Task),
       { id := "T1", description := "d", status := .Done, phase := "G",
         subPhase := "s", priority := .High, subProjectId := none }] :=
  ⟨by decide, (c8_canonical_status_order _ _ (by decide)).1⟩

/-- Claim C9: any trimmed line starting with the list-item marker yields
exactly one task, and `parse("- , , ,")` yields the documented defaults:
empty subPhase, placeholder id "partial-0", description "...", priority None,
status Backlog, phase "General". -/
theorem c9_default_fallback (line : String) (i : Nat) (st : TaskStatus)
    (ph : String) (h : strStarts "- " (jsTrim line) = true) :
    (parseLines [line] i st ph).length = 1 ∧
    parseImplementationPlan "- , , ," =
      [{ id := "partial-0", description := "...", status := .Backlog,
         phase := "General", subPhase := "", priority := .None,
         subProjectId := none }] := by
  constructor
  · obtain ⟨hns, hnp⟩ := dash_line_not_status (jsTrim line) h
    rw [parseLines_cons, taskOut, if_neg (by simp [hns]), if_neg (by simp [hnp]),
      if_pos h]
    rfl
  · decide

/-- Witness for claim C9 at the spec's concrete malformed line. -/
theorem c9_default_fallback_witness :
    strStarts "- " (jsTrim "- , , ,") = true ∧
    (parseLines ["- , , ,"] 0 .Backlog "General").length = 1 :=
  ⟨by decide, (c9_default_fallback "- , , ," 0 .Backlog "General" (by decide)).1⟩

/-- Claim C10: every field of every parsed task is free of leading and
trailing whitespace (trimming it again changes nothing), and the two example
lines with extra spaces around the commas parse to identical task records. -/
theorem c10_field_trimming (text : String) (t : Task)
    (h : t ∈ parseImplementationPlan text) :
    jsTrim t.subPhase = t.subPhase ∧ jsTrim t.id = t.id ∧
    jsTrim t.description = t.description ∧
    parseImplementationPlan "-  a ,  b ,  c , High" =
      parseImplementationPlan "- a, b, c, High" := by
  rw [parseImplementationPlan] at h
  have h₁ := parseLines_fields_trimmed _ 0 .Backlog "General" t h
  exact ⟨h₁.1, h₁.2.1, h₁.2.2, by decide⟩

/-- Witness for claim C10 at a concrete spaced line and its parsed task. -/
theorem c10_field_trimming_witness :
    ({ id := "b", description := "c", status := .Backlog, phase := "General",
       subPhase := "a", priority := .High, subProjectId := none } : Task) ∈
      parseImplementationPlan "-  a ,  b ,  c , High" ∧
    jsTrim ({ id := "b", description := "c", status := .Backlog,
              phase := "General", subPhase := "a", priority := .High,
              subProjectId := none } : Task).id =
      ({ id := "b", description := "c", status := .Backlog, phase := "General",
         subPhase := "a", priority := .High, subProjectId := none } : Task).id :=
  ⟨by decide,
    (c10_field_trimming "-  a ,  b ,  c , High" _ (by decide)).2.1⟩

end Zenith
